import Mathlib

/-!
# Win32 image inspection: section lookup in loaded PE images

A shallow embedding of `stdlib/public/runtime/ImageInspectionWin32.cpp`.

* Process memory is a map from addresses to bytes that is undefined where
  nothing is mapped; a read of an unmapped byte stops the run.
* Pointers and C `int` values are integers; pointer arithmetic is exact.
  The fixed-width fields read from an image are decoded little-endian and
  reduced to their width (`int32_t`, `int16_t`, `uint32_t`, `DWORD`).
* `swift::fatalError` does not return: it is a way for a run to stop.
* The Win32 calls (`OpenProcess`, `EnumProcessModules`,
  `GetModuleFileNameExA`, `GetModuleHandle[A]`) are fields of an environment
  record; the code is modelled for every such environment.
* Calls that the properties speak about are recorded in a trace.
-/

namespace ImageInspectionWin32

/-! ## Memory and results -/

/-- Process memory: the byte stored at an address, `none` where nothing is mapped. -/
abbrev Mem := Int → Option Nat

/-- Ways in which an execution leaves the behaviour defined by C++. -/
inductive Undefined where
  | unmappedRead (addr : Int)
  | vectorIndex (i size : Nat)
  | uninitializedRead
  deriving DecidableEq, Repr

/-- Result of a call: `.ret a` when it returns `a` to its caller; `.fatal msg`
when it calls `swift::fatalError`, which does not return; `.undefined u` when
it leaves defined behaviour. -/
inductive Outcome (α : Type) where
  | ret (a : α)
  | fatal (msg : String)
  | undefined (u : Undefined)
  deriving DecidableEq, Repr

/-- Sequencing: the rest of the body runs only when the call returns. -/
def Outcome.bind {α β : Type} (x : Outcome α) (f : α → Outcome β) : Outcome β :=
  match x with
  | .ret a => f a
  | .fatal msg => .fatal msg
  | .undefined u => .undefined u

instance : Monad Outcome where
  pure := Outcome.ret
  bind := Outcome.bind

/-- One byte of memory, as an `unsigned char`. -/
def readU8 (mem : Mem) (a : Int) : Option Nat :=
  (mem a).map (· % 256)

/-- The `n` bytes of memory starting at address `a`. -/
def readBytes (mem : Mem) (a : Int) : Nat → Option (List Nat)
  | 0 => some []
  | n + 1 =>
    match readU8 mem a, readBytes mem (a + 1) n with
    | some b, some bs => some (b :: bs)
    | _, _ => none

/-- Value of a little-endian byte sequence. -/
def leValue : List Nat → Nat
  | [] => 0
  | b :: bs => b + 256 * leValue bs

/-- Two's-complement reading of a `w`-bit value. -/
def toSigned (w : Nat) (u : Nat) : Int :=
  if u % 2 ^ w < 2 ^ (w - 1) then ((u % 2 ^ w : Nat) : Int)
  else ((u % 2 ^ w : Nat) : Int) - 2 ^ w

/-- Load through a `uint32_t *`. -/
def readU32 (mem : Mem) (a : Int) : Option Nat :=
  (readBytes mem a 4).map leValue

/-- Load through an `int32_t *`. -/
def readI32 (mem : Mem) (a : Int) : Option Int :=
  (readBytes mem a 4).map fun bs => toSigned 32 (leValue bs)

/-- Load through an `int16_t *`. -/
def readI16 (mem : Mem) (a : Int) : Option Int :=
  (readBytes mem a 2).map fun bs => toSigned 16 (leValue bs)

/-- A load that stops the run when the address is not mapped. -/
def load {α : Type} (r : Option α) (a : Int) : Outcome α :=
  match r with
  | some v => .ret v
  | none => .undefined (.unmappedRead a)

/-! ## C strings -/

/-- The C library `strcmp` on two character sequences. A sequence ends at its
first NUL; the end of the list stands for the terminating NUL. The result is
the difference of the first pair of differing characters, `0` when the
strings are equal. -/
def strcmp : List Nat → List Nat → Int
  | [], [] => 0
  | [], b :: _ => if b = 0 then 0 else -(b : Int)
  | a :: _, [] => if a = 0 then 0 else (a : Int)
  | a :: as, b :: bs =>
    if a ≠ b then (a : Int) - (b : Int)
    else if a = 0 then 0
    else strcmp as bs

/-- The characters of a C string literal. -/
def cstr (s : String) : List Nat := s.toList.map Char.toNat

/-! ## `_swift_getSectionDataPE` (lines 112-159) -/

def kLocationOfNtHeaderOffset : Int := 0x3C

def kCoffFileHeaderSize : Int := 20

def kSectionRecordSize : Int := 40

/-- What `_swift_getSectionDataPE` hands back: the returned pointer (`0` is
`nullptr`) and the value stored through `sectionSize`, `none` when nothing was
stored. -/
abbrev SectionData := Int × Option Nat

/-- The loop of lines 143-156, with `n` iterations left and `sectionHeader`
pointing at the current record. -/
def sectionLoop (mem : Mem) (handle : Int) (sectionName : List Nat) :
    Nat → Int → Outcome SectionData
  | 0, _ => .ret (0, none)
  | n + 1, sectionHeader => do
    let virtualSize ← load (readU32 mem (sectionHeader + 8)) (sectionHeader + 8)
    let virtualAddress ← load (readU32 mem (sectionHeader + 12)) (sectionHeader + 12)
    let nameOfThisSection ← load (readBytes mem sectionHeader 8) sectionHeader
    if strcmp sectionName (nameOfThisSection ++ [0]) = 0 then
      .ret (handle + virtualAddress, some virtualSize)
    else
      sectionLoop mem handle sectionName n (sectionHeader + kSectionRecordSize)

def _swift_getSectionDataPE (mem : Mem) (handle : Int) (sectionName : List Nat) :
    Outcome SectionData := do
  let peStart := handle
  let ntHeadersOffset ←
    load (readI32 mem (peStart + kLocationOfNtHeaderOffset))
      (peStart + kLocationOfNtHeaderOffset)
  let c0 ← load (readU8 mem (peStart + ntHeadersOffset)) (peStart + ntHeadersOffset)
  let assert1 ←
    if c0 = 0x50 then do
      let c1 ← load (readU8 mem (peStart + ntHeadersOffset + 1))
        (peStart + ntHeadersOffset + 1)
      pure (decide (c1 = 0x45))
    else pure false
  if !assert1 then
    .fatal "_swift_getSectionDataPE()'s finding PE failed"
  else
    let coff := peStart + ntHeadersOffset + 4
    let numberOfSections ← load (readI16 mem (coff + 2)) (coff + 2)
    let sizeOfOptionalHeader ← load (readI16 mem (coff + 16)) (coff + 16)
    let sectionTableBase := coff + kCoffFileHeaderSize + sizeOfOptionalHeader
    sectionLoop mem handle sectionName numberOfSections.toNat sectionTableBase

/-! ## The Win32 environment and traces -/

/-- What one call of `EnumProcessModules` does: its `BOOL` result, the value
it stores in `*lpcbNeeded`, and the module handles it stores from the start of
the buffer. -/
structure EnumResult where
  ret : Bool
  neededSize : Nat
  written : List Int
  deriving DecidableEq, Repr

/-- What one call of `GetModuleFileNameExA` does: its `DWORD` result (`0` on
failure) and the characters it stores in `modName`. -/
structure FileNameResult where
  ret : Nat
  modName : List Nat
  deriving DecidableEq, Repr

/-- The environment of a run: the Win32 calls and the process memory.
`EnumProcessModules k cb` is the call made after `k` earlier ones, with a
buffer of `cb` bytes. A null handle is `0`. -/
structure Win32 where
  sizeofHMODULE : Nat
  OpenProcess : Int
  EnumProcessModules : Nat → Nat → EnumResult
  GetModuleFileNameExA : Int → FileNameResult
  GetModuleHandle : Int
  GetModuleHandleA : List Nat → Int
  mem : Mem

/-- The two consumers declared in `ImageInspection.h`. -/
inductive BlockCallback where
  | addImageProtocolConformanceBlockCallback
  | addImageTypeMetadataRecordBlockCallback
  deriving DecidableEq, Repr

/-- Calls recorded in the trace of a run. -/
inductive Event where
  | enumProcessModules (cb : Nat)
  | callback (dlpi_addr : Int) (dlpi_name : List Nat)
  | getSectionData (handle : Int) (sectionName : List Nat)
  | addImageBlock (fn : BlockCallback) (addr : Int) (size : Nat)
  deriving DecidableEq, Repr

/-- A run: the calls made so far and how the run ended. -/
structure Run (α : Type) where
  trace : List Event
  outcome : Outcome α
  deriving DecidableEq, Repr

/-- Sequencing of runs: traces are concatenated, a stopped run stays stopped. -/
def Run.bind {α β : Type} (x : Run α) (f : α → Run β) : Run β :=
  match x.outcome with
  | .ret a => ⟨x.trace ++ (f a).trace, (f a).outcome⟩
  | .fatal msg => ⟨x.trace, .fatal msg⟩
  | .undefined u => ⟨x.trace, .undefined u⟩

instance : Monad Run where
  pure a := ⟨[], .ret a⟩
  bind := Run.bind

/-- Record one call. -/
def Run.emit (e : Event) : Run Unit := ⟨[e], .ret ()⟩

/-- A step that makes no recorded call. -/
def Run.lift {α : Type} (o : Outcome α) : Run α := ⟨[], o⟩

structure InspectArgs where
  fnAddImageBlock : BlockCallback
  sectionName : List Nat
  deriving DecidableEq, Repr

/-- The header passed to the per-module callback; a null `dlpi_name` is `none`. -/
structure _swift_dl_phdr_info where
  dlpi_addr : Int
  dlpi_name : Option (List Nat)
  deriving DecidableEq, Repr

def ProtocolConformancesSection : List Nat := cstr ".sw2prtc"

def TypeMetadataRecordsSection : List Nat := cstr ".sw2tymd"

/-! ## `_swift_dl_iterate_phdr` (lines 55-110) -/

/-- The type of the `Callback` parameter. -/
abbrev PhdrCallback (δ : Type) := _swift_dl_phdr_info → Nat → δ → Run Int

/-- The state after the enumeration queries: `modules` and `neededSize`. -/
abbrev ModuleBuffer := List Int × Nat

/-- Conversion to the 32-bit unsigned `DWORD`. -/
def toDWORD (n : Nat) : Nat := n % 2 ^ 32

/-- The argument `modules.size() * sizeof(HMODULE)`, converted to `DWORD`. -/
def cbOf (os : Win32) (modules : List Int) : Nat :=
  toDWORD (modules.length * os.sizeofHMODULE)

/-- The buffer after the `EnumProcessModules` call made after `k` earlier
ones: the call stores handles from the start of the buffer, no more than the
`cb` bytes it was given hold. -/
def storeHandles (os : Win32) (k : Nat) (modules : List Int) : List Int :=
  let cb := cbOf os modules
  let stored :=
    (os.EnumProcessModules k cb).written.take (min (cb / os.sizeofHMODULE) modules.length)
  stored ++ modules.drop stored.length

/-- The call `EnumProcessModules(procHandle, modules.data(),
modules.size() * sizeof(HMODULE), &neededSize)`, made after `k` earlier calls:
the result, the buffer afterwards and `neededSize`, a `DWORD`. -/
def enumProcessModules (os : Win32) (k : Nat) (modules : List Int) :
    Run (Bool × ModuleBuffer) :=
  ⟨[.enumProcessModules (cbOf os modules)],
    .ret ((os.EnumProcessModules k (cbOf os modules)).ret, storeHandles os k modules,
      toDWORD (os.EnumProcessModules k (cbOf os modules)).neededSize)⟩

/-- The statement `modules.resize(n)`. -/
def resize (modules : List Int) (n : Nat) : List Int :=
  modules.take n ++ List.replicate (n - modules.length) 0

/-- The buffer `modules(1024)` of line 68. -/
def initialModules : List Int := List.replicate 1024 0

/-- Lines 58-88: the process handle and the module enumeration. -/
def enumerateModules (os : Win32) : Run ModuleBuffer := do
  let procHandle := os.OpenProcess
  if procHandle = 0 then
    Run.lift (.fatal "OpenProcess() failed")
  else
    let modules : List Int := initialModules
    let (ret, modules, neededSize) ← enumProcessModules os 0 modules
    if !ret then
      Run.lift (.fatal "EnumProcessModules() failed")
    else
      let (ret, modules, neededSize) ←
        if modules.length * os.sizeofHMODULE < neededSize then
          enumProcessModules os 1 (resize modules (neededSize / os.sizeofHMODULE))
        else
          (pure (ret, modules, neededSize) : Run (Bool × ModuleBuffer))
      if !ret then
        Run.lift (.fatal "EnumProcessModules() failed")
      else
        pure (modules, neededSize)

/-- The read `modules[i]`. -/
def vectorAt (modules : List Int) (i : Nat) : Outcome Int :=
  match modules[i]? with
  | some h => .ret h
  | none => .undefined (.vectorIndex i modules.length)

/-- The loop of lines 90-105 with `n` iterations left, at index `i`; the
result is `lastRet` at the exit of the loop. -/
def moduleLoop {δ : Type} (os : Win32) (Callback : PhdrCallback δ) (data : δ)
    (modules : List Int) : Nat → Nat → Int → Run Int
  | 0, _, lastRet => pure lastRet
  | n + 1, i, _ => do
    let h ← Run.lift (vectorAt modules i)
    let r := os.GetModuleFileNameExA h
    if r.ret = 0 then
      Run.lift (.fatal "GetModuleFileNameExA() failed")
    else
      let hdr : _swift_dl_phdr_info := { dlpi_name := some r.modName, dlpi_addr := h }
      Run.emit (.callback hdr.dlpi_addr r.modName)
      let lastRet ← Callback hdr (2 * os.sizeofHMODULE) data
      if lastRet ≠ 0 then
        pure lastRet
      else
        moduleLoop os Callback data modules n (i + 1) lastRet

def _swift_dl_iterate_phdr {δ : Type} (os : Win32) (Callback : PhdrCallback δ) (data : δ) :
    Run Int := do
  let (modules, neededSize) ← enumerateModules os
  let lastRet : Int := 0
  moduleLoop os Callback data modules (neededSize / os.sizeofHMODULE) 0 lastRet

/-! ## `_addImageCallback` (lines 161-194) and the two scans -/

def _addImageCallback (os : Win32) : PhdrCallback InspectArgs := fun info _size data => do
  let inspectArgs := data
  let handle : Int :=
    match info.dlpi_name with
    | none => os.GetModuleHandle
    | some name => if name.headD 0 = 0 then os.GetModuleHandle else os.GetModuleHandleA name
  Run.emit (.getSectionData handle inspectArgs.sectionName)
  let (conformances, conformancesSize) ←
    Run.lift (_swift_getSectionDataPE os.mem handle inspectArgs.sectionName)
  if conformances ≠ 0 then
    match conformancesSize with
    | some size => Run.emit (.addImageBlock inspectArgs.fnAddImageBlock conformances size)
    | none => Run.lift (.undefined .uninitializedRead)
  return 0

def initializeProtocolConformanceLookup (os : Win32) : Run Unit := do
  let ProtocolConformancesArgs : InspectArgs :=
    { fnAddImageBlock := .addImageProtocolConformanceBlockCallback,
      sectionName := ProtocolConformancesSection }
  let _ ← _swift_dl_iterate_phdr os (_addImageCallback os) ProtocolConformancesArgs

def initializeTypeMetadataRecordLookup (os : Win32) : Run Unit := do
  let TypeMetadataRecordsArgs : InspectArgs :=
    { fnAddImageBlock := .addImageTypeMetadataRecordBlockCallback,
      sectionName := TypeMetadataRecordsSection }
  let _ ← _swift_dl_iterate_phdr os (_addImageCallback os) TypeMetadataRecordsArgs

/-! ## Synthetic images -/

/-- Memory holding exactly the bytes `bytes` from address `base` on. -/
def memOfBytes (base : Int) (bytes : List Nat) : Mem :=
  fun a => if base ≤ a then bytes[(a - base).toNat]? else none

/-- The bytes of a section record: 8-byte name, size, relative address and
24 further bytes. -/
def recordBytes (name : List Nat) (size addr : Nat) : List Nat :=
  name ++ [size % 256, size / 256 % 256, size / 65536 % 256, size / 16777216 % 256]
    ++ [addr % 256, addr / 256 % 256, addr / 65536 % 256, addr / 16777216 % 256]
    ++ List.replicate 24 0

/-- An image with the header offset at `0x3C` pointing to `0x40`, the `PE`
signature, no optional header and the given section records. -/
def imageBytes (records : List (List Nat)) : List Nat :=
  List.replicate 0x3C 0 ++ [0x40, 0, 0, 0]
    ++ [0x50, 0x45, 0, 0]
    ++ [0, 0, records.length % 256, records.length / 256 % 256]
    ++ List.replicate 12 0 ++ [0, 0] ++ [0, 0]
    ++ records.flatten

/-! ## Vocabulary of the properties -/

/-- A name padded with NUL bytes to the 8 bytes of a name field. -/
def padName (q : List Nat) : List Nat :=
  q ++ List.replicate (8 - q.length) 0

/-- The C string held in a character array: the characters before the first
NUL. -/
def cstring : List Nat → List Nat
  | [] => []
  | c :: cs => if c = 0 then [] else c :: cstring cs

/-- A name field is NUL-padded: it is its C string followed by NUL bytes only,
up to 8 bytes. -/
def NulPadded (nm : List Nat) : Prop :=
  nm = padName (cstring nm)

instance (nm : List Nat) : Decidable (NulPadded nm) := by
  unfold NulPadded; infer_instance

/-- The fields of a section record that the locator uses. -/
structure SectionRecord where
  name : List Nat
  virtualSize : Nat
  virtualAddress : Nat
  deriving DecidableEq, Repr

/-- The section record stored at address `a`: name at bytes 0..7, size at
bytes 8..11, relative address at bytes 12..15. -/
def recordAt (mem : Mem) (a : Int) : Option SectionRecord :=
  match readBytes mem a 8, readU32 mem (a + 8), readU32 mem (a + 12) with
  | some nm, some sz, some va => some ⟨nm, sz, va⟩
  | _, _, _ => none

/-- Address of record `i` of the image at `base` whose header offset is `e`
and whose optional header has `soh` bytes. -/
def recordAddr (base e soh : Int) (i : Nat) : Int :=
  base + e + 4 + 20 + soh + 40 * (i : Int)

/-- A run preceded by the calls `t`. -/
def Run.prepend {α : Type} (t : List Event) (r : Run α) : Run α :=
  ⟨t ++ r.trace, r.outcome⟩

/-- The header that `_swift_dl_iterate_phdr` builds for the module handle `m`
(lines 98-100). -/
def hdrOf (os : Win32) (m : Int) : _swift_dl_phdr_info :=
  { dlpi_name := some (os.GetModuleFileNameExA m).modName, dlpi_addr := m }

/-- The handle to which `_addImageCallback` resolves the module `m`
(lines 168-171). -/
def resolvedHandle (os : Win32) (m : Int) : Int :=
  if (os.GetModuleFileNameExA m).modName.headD 0 = 0 then os.GetModuleHandle
  else os.GetModuleHandleA (os.GetModuleFileNameExA m).modName

/-- The invocations of the per-module callback in a trace. -/
def callbacksOf (t : List Event) : List (Int × List Nat) :=
  t.filterMap fun e =>
    match e with
    | .callback a n => some (a, n)
    | _ => none

/-- The handles on which the section locator is called in a trace. -/
def lookupsOf (t : List Event) : List Int :=
  t.filterMap fun e =>
    match e with
    | .getSectionData h _ => some h
    | _ => none

/-- The invocations of a consumer callback in a trace. -/
def blocksOf (t : List Event) : List (BlockCallback × Int × Nat) :=
  t.filterMap fun e =>
    match e with
    | .addImageBlock fn a sz => some (fn, a, sz)
    | _ => none

/-- The calls of one loop iteration on the module `m` when its name resolves:
the per-module callback and what it does. -/
def iterationTrace {δ : Type} (os : Win32) (Callback : PhdrCallback δ) (data : δ)
    (m : Int) : List Event :=
  .callback m (os.GetModuleFileNameExA m).modName ::
    (Callback (hdrOf os m) (2 * os.sizeofHMODULE) data).trace

/-- The value of `neededSize` after the first `EnumProcessModules` call. -/
def firstNeeded (os : Win32) : Nat :=
  toDWORD (os.EnumProcessModules 0 (cbOf os initialModules)).neededSize

/-- The buffer after the `resize` of line 80. -/
def resizedModules (os : Win32) : List Int :=
  resize (storeHandles os 0 initialModules) (firstNeeded os / os.sizeofHMODULE)

/-- The image at `handle` is validly signed and readable: the header offset,
the `PE` signature, the section count, the optional-header size and the
section records up to the count are mapped. -/
def ValidImage (mem : Mem) (handle : Int) : Prop :=
  ∃ (e N soh : Int),
    readI32 mem (handle + 0x3C) = some e ∧
    readU8 mem (handle + e) = some 0x50 ∧ readU8 mem (handle + e + 1) = some 0x45 ∧
    readI16 mem (handle + e + 4 + 2) = some N ∧
    readI16 mem (handle + e + 4 + 16) = some soh ∧
    ∀ i < N.toNat, (recordAt mem (recordAddr handle e soh i)).isSome

/-- The consumer invocation that the scan owes to the module `m`: the range
`(address, size)` when the locator finds the section in the image the module
resolves to, nothing otherwise. -/
def sectionHit (os : Win32) (args : InspectArgs) (m : Int) :
    Option (BlockCallback × Int × Nat) :=
  match _swift_getSectionDataPE os.mem (resolvedHandle os m) args.sectionName with
  | .ret (p, some sz) => some (args.fnAddImageBlock, p, sz)
  | _ => none

/-- The range `(a, sz)` is the section of an enumerated module, in a scan with
the arguments `args` whose trace is `t`: the enumeration succeeded and left
the handle `m` in the buffer at an index `j` below the loop bound; the
per-module callback was invoked on `m` and the locator was called on the
handle that `m` resolves to; the image at that handle carries the `PE`
signature at the header offset `e` read at byte `0x3C`, with section count `N`
and optional-header size `soh` read from its header; record `i` of its
section table, `i` below the count, is the first whose name field read as a
C string equals the section name of the scan; `a` is the handle plus the
relative address of that record and `sz` is the size that record declares. -/
def MatchedRange (os : Win32) (args : InspectArgs) (t : List Event) (a : Int) (sz : Nat) :
    Prop :=
  ∃ (evs : List Event) (modules : List Int) (neededSize j : Nat) (m e N soh : Int)
      (i : Nat) (r : SectionRecord),
    enumerateModules os = ⟨evs, .ret (modules, neededSize)⟩ ∧
    j < neededSize / os.sizeofHMODULE ∧ modules[j]? = some m ∧
    Event.callback m (os.GetModuleFileNameExA m).modName ∈ t ∧
    Event.getSectionData (resolvedHandle os m) args.sectionName ∈ t ∧
    readI32 os.mem (resolvedHandle os m + 0x3C) = some e ∧
    readU8 os.mem (resolvedHandle os m + e) = some 0x50 ∧
    readU8 os.mem (resolvedHandle os m + e + 1) = some 0x45 ∧
    readI16 os.mem (resolvedHandle os m + e + 4 + 2) = some N ∧
    readI16 os.mem (resolvedHandle os m + e + 4 + 16) = some soh ∧
    i < N.toNat ∧
    recordAt os.mem (recordAddr (resolvedHandle os m) e soh i) = some r ∧
    cstring r.name = args.sectionName ∧
    (∀ k < i, ∃ rk, recordAt os.mem (recordAddr (resolvedHandle os m) e soh k) = some rk ∧
      cstring rk.name ≠ args.sectionName) ∧
    a = resolvedHandle os m + (r.virtualAddress : Int) ∧ sz = r.virtualSize

/-! ## Concrete images -/

/-- The image of the scenario: sections `.sw2prtc` (address `0x2000`, size 64)
and `.text` (address `0x1000`, size 4096). -/
def scenarioImage : List Nat :=
  imageBytes
    [recordBytes (padName (cstr ".sw2prtc")) 64 0x2000,
     recordBytes (padName (cstr ".text")) 4096 0x1000]

/-- The scenario image loaded at `0x10000`. -/
def scenarioMem : Mem := memOfBytes 0x10000 scenarioImage

/-- An image with the single section `ab`, loaded at `0x10000`. -/
def abMem : Mem :=
  memOfBytes 0x10000 (imageBytes [recordBytes (padName (cstr "ab")) 64 0x2000])

/-- An image whose header offset points at the bytes `P`, `P`. -/
def unsignedMem : Mem :=
  memOfBytes 0x10000 (List.replicate 0x3C 0 ++ [0x40, 0, 0, 0] ++ [0x50, 0x50, 0, 0])

/-- An image whose single section record has the name field
`a b NUL x NUL NUL NUL NUL`. -/
def garbageMem : Mem :=
  memOfBytes 0x10000 (imageBytes [recordBytes [0x61, 0x62, 0, 0x78, 0, 0, 0, 0] 64 0x2000])

/-- Memory holding what `m1` holds and, elsewhere, what `m2` holds. -/
def memUnion (m1 m2 : Mem) : Mem :=
  fun a => match m1 a with
    | some b => some b
    | none => m2 a

/-- A process with three modules: `a.exe` at `0x10000` (the scenario image),
`b.dll` at `0x20000` (only `.text`) and `c.dll` at `0x30000` (`.sw2prtc` at
`0x3000`, size 48). -/
def threeModules : Win32 where
  sizeofHMODULE := 8
  OpenProcess := 0x44
  EnumProcessModules := fun _ cb => ⟨true, 24, [0x10000, 0x20000, 0x30000].take (cb / 8)⟩
  GetModuleFileNameExA := fun h =>
    if h = 0x10000 then ⟨5, cstr "a.exe"⟩
    else if h = 0x20000 then ⟨5, cstr "b.dll"⟩
    else if h = 0x30000 then ⟨5, cstr "c.dll"⟩
    else ⟨0, []⟩
  GetModuleHandle := 0x10000
  GetModuleHandleA := fun n =>
    if n = cstr "a.exe" then 0x10000
    else if n = cstr "b.dll" then 0x20000
    else if n = cstr "c.dll" then 0x30000
    else 0
  mem :=
    memUnion (memOfBytes 0x10000 scenarioImage)
      (memUnion
        (memOfBytes 0x20000 (imageBytes [recordBytes (padName (cstr ".text")) 4096 0x1000]))
        (memOfBytes 0x30000 (imageBytes [recordBytes (padName (cstr ".sw2prtc")) 48 0x3000])))

/-- The arguments of `initializeProtocolConformanceLookup`. -/
def protocolArgs : InspectArgs :=
  { fnAddImageBlock := .addImageProtocolConformanceBlockCallback,
    sectionName := ProtocolConformancesSection }

/-- The arguments of `initializeTypeMetadataRecordLookup`. -/
def typeMetadataArgs : InspectArgs :=
  { fnAddImageBlock := .addImageTypeMetadataRecordBlockCallback,
    sectionName := TypeMetadataRecordsSection }

/-- A process with the single module `a.exe` at `0x10000`, whose section
`.sw2prtc` at `0x2000` declares size 0. -/
def zeroSizeProcess : Win32 where
  sizeofHMODULE := 8
  OpenProcess := 0x44
  EnumProcessModules := fun _ cb => ⟨true, 8, [0x10000].take (cb / 8)⟩
  GetModuleFileNameExA := fun _ => ⟨5, cstr "a.exe"⟩
  GetModuleHandle := 0x10000
  GetModuleHandleA := fun n => if n = cstr "a.exe" then 0x10000 else 0
  mem := memOfBytes 0x10000 (imageBytes [recordBytes (padName (cstr ".sw2prtc")) 0 0x2000])

/-- A process with two modules: `b.dll`, enumerated first, for which
`GetModuleHandleA` returns null, and `a.exe` at `0x10000` (the scenario
image). Nothing is mapped at the addresses from `0` on. -/
def unresolvedProcess : Win32 where
  sizeofHMODULE := 8
  OpenProcess := 0x44
  EnumProcessModules := fun _ cb => ⟨true, 16, [0x20000, 0x10000].take (cb / 8)⟩
  GetModuleFileNameExA := fun h => if h = 0x10000 then ⟨5, cstr "a.exe"⟩ else ⟨5, cstr "b.dll"⟩
  GetModuleHandle := 0x10000
  GetModuleHandleA := fun n => if n = cstr "a.exe" then 0x10000 else 0
  mem := memOfBytes 0x10000 scenarioImage

/-- A process with two modules: `a.exe` at `0x10000` (the scenario image) and
a second module for which `GetModuleFileNameExA` fails. -/
def nameFailureProcess : Win32 where
  sizeofHMODULE := 8
  OpenProcess := 0x44
  EnumProcessModules := fun _ cb => ⟨true, 16, [0x10000, 0x20000].take (cb / 8)⟩
  GetModuleFileNameExA := fun h => if h = 0x10000 then ⟨5, cstr "a.exe"⟩ else ⟨0, []⟩
  GetModuleHandle := 0x10000
  GetModuleHandleA := fun n => if n = cstr "a.exe" then 0x10000 else 0
  mem := memOfBytes 0x10000 scenarioImage

/-- A process for which `OpenProcess` fails. -/
def noHandleProcess : Win32 :=
  { nameFailureProcess with OpenProcess := 0 }

/-- The handles of 1025 modules. -/
def manyModules : List Int :=
  (List.range 1025).map fun (i : Nat) => (0x10000 : Int) * ((i : Int) + 1)

/-- A process with the 1025 modules `manyModules`, unchanged during the call;
every module has the name `a.exe`, which resolves to the scenario image at
`0x10000`. -/
def steadyProcess : Win32 where
  sizeofHMODULE := 8
  OpenProcess := 0x44
  EnumProcessModules := fun _ cb =>
    ⟨true, manyModules.length * 8, manyModules.take (cb / 8)⟩
  GetModuleFileNameExA := fun _ => ⟨5, cstr "a.exe"⟩
  GetModuleHandle := 0x10000
  GetModuleHandleA := fun n => if n = cstr "a.exe" then 0x10000 else 0
  mem := memOfBytes 0x10000 scenarioImage

/-- A process in which a module is loaded between the two enumeration
queries: the first query reports 1025 modules, the second, given a buffer
of 1025 entries, stores 1025 handles and reports 1026 modules. -/
def raceProcess : Win32 :=
  { steadyProcess with
    EnumProcessModules := fun k cb =>
      if k = 0 then ⟨true, 1025 * 8, manyModules.take (cb / 8)⟩
      else ⟨true, 1026 * 8, (manyModules ++ [0x55550000]).take (cb / 8)⟩ }

end ImageInspectionWin32

namespace ImageInspectionWin32

set_option maxRecDepth 100000

/-! ## Facts about `strcmp` and name fields -/

theorem strcmp_eq_zero_iff (a b : List Nat) :
    strcmp a b = 0 ↔ cstring a = cstring b := by
  induction a generalizing b with
  | nil =>
    cases b with
    | nil => simp [strcmp]
    | cons y ys =>
      by_cases hy : y = 0
      · simp [strcmp, cstring, hy]
      · simp [strcmp, cstring, hy]
  | cons x xs ih =>
    cases b with
    | nil =>
      by_cases hx : x = 0
      · simp [strcmp, cstring, hx]
      · simp [strcmp, cstring, hx]
    | cons y ys =>
      by_cases hxy : x = y
      · subst hxy
        by_cases hx : x = 0
        · simp [strcmp, cstring, hx]
        · simp [strcmp, cstring, hx, ih]
      · by_cases hx : x = 0
        · have hy : y ≠ 0 := fun h => hxy (by rw [hx, h])
          have hy2 : ¬ (0 = y) := fun h => hy h.symm
          simp [strcmp, cstring, hxy, hx, hy, hy2]
        · by_cases hy : y = 0
          · simp [strcmp, cstring, hxy, hx, hy]
          · simp [strcmp, cstring, hxy, hx, hy]
            omega

theorem cstring_append_nul (nm : List Nat) : cstring (nm ++ [0]) = cstring nm := by
  induction nm with
  | nil => simp [cstring]
  | cons x xs ih =>
    by_cases hx : x = 0
    · simp [cstring, hx]
    · simp [cstring, hx, ih]

theorem cstring_append_replicate (q : List Nat) (hq : ∀ c ∈ q, c ≠ 0) (k : Nat) :
    cstring (q ++ List.replicate k 0) = q := by
  induction q with
  | nil => cases k <;> simp [cstring, List.replicate_succ]
  | cons x xs ih =>
    have hx : x ≠ 0 := hq x (by simp)
    have hxs : ∀ c ∈ xs, c ≠ 0 := fun c hc => hq c (by simp [hc])
    simp [cstring, hx, ih hxs]

theorem cstring_nulFree (q : List Nat) (hq : ∀ c ∈ q, c ≠ 0) : cstring q = q := by
  have := cstring_append_replicate q hq 0
  simpa using this

theorem cstring_padName (q : List Nat) (hq : ∀ c ∈ q, c ≠ 0) : cstring (padName q) = q :=
  cstring_append_replicate q hq _

/-- The comparison of line 151 compares the query with the name field up to
the first NUL of the field. -/
theorem strcmp_name_iff (q nm : List Nat) (hq : ∀ c ∈ q, c ≠ 0) :
    strcmp q (nm ++ [0]) = 0 ↔ cstring nm = q := by
  rw [strcmp_eq_zero_iff, cstring_append_nul, cstring_nulFree q hq]
  exact eq_comm

/-- On a NUL-padded name field the comparison of line 151 is equality of the
whole field with the padded query. -/
theorem strcmp_padded_iff (q nm : List Nat) (hq : ∀ c ∈ q, c ≠ 0) (hnm : NulPadded nm) :
    strcmp q (nm ++ [0]) = 0 ↔ nm = padName q := by
  rw [strcmp_name_iff q nm hq]
  constructor
  · intro h
    have := hnm
    unfold NulPadded at this
    rw [h] at this
    exact this
  · intro h
    rw [h]
    exact cstring_padName q hq

/-! ## Facts about `_swift_getSectionDataPE` -/

@[simp] theorem Outcome.ret_bind {α β : Type} (a : α) (f : α → Outcome β) :
    (Outcome.ret a >>= f) = f a := rfl

@[simp] theorem Outcome.fatal_bind {α β : Type} (msg : String) (f : α → Outcome β) :
    ((Outcome.fatal msg : Outcome α) >>= f) = Outcome.fatal msg := rfl

@[simp] theorem Outcome.undefined_bind {α β : Type} (u : Undefined) (f : α → Outcome β) :
    ((Outcome.undefined u : Outcome α) >>= f) = Outcome.undefined u := rfl

@[simp] theorem Outcome.pure_eq {α : Type} (a : α) : (pure a : Outcome α) = Outcome.ret a := rfl

@[simp] theorem load_some {α : Type} (v : α) (a : Int) : load (some v) a = Outcome.ret v := rfl

@[simp] theorem load_none {α : Type} (a : Int) :
    load (none : Option α) a = Outcome.undefined (.unmappedRead a) := rfl

theorem load_eq_ret {α : Type} {r : Option α} {a : Int} {v : α} (h : load r a = .ret v) :
    r = some v := by
  cases r with
  | none => simp at h
  | some w => simpa using h

theorem bind_eq_ret {α β : Type} {x : Outcome α} {f : α → Outcome β} {b : β}
    (h : (x >>= f) = .ret b) : ∃ a, x = .ret a ∧ f a = .ret b := by
  cases x with
  | ret a => exact ⟨a, rfl, by simpa using h⟩
  | fatal msg => simp at h
  | undefined u => simp at h

theorem recordAt_eq_some {mem : Mem} {a : Int} {r : SectionRecord} :
    recordAt mem a = some r ↔
      readBytes mem a 8 = some r.name ∧ readU32 mem (a + 8) = some r.virtualSize ∧
        readU32 mem (a + 12) = some r.virtualAddress := by
  unfold recordAt
  cases h1 : readBytes mem a 8 <;> cases h2 : readU32 mem (a + 8) <;>
    cases h3 : readU32 mem (a + 12) <;> cases r <;> simp

/-- One iteration of the loop over a readable record. -/
theorem sectionLoop_succ {mem : Mem} {handle : Int} {q : List Nat} {a : Int}
    {r : SectionRecord} (n : Nat) (hr : recordAt mem a = some r) :
    sectionLoop mem handle q (n + 1) a =
      if strcmp q (r.name ++ [0]) = 0 then
        .ret (handle + (r.virtualAddress : Int), some r.virtualSize)
      else sectionLoop mem handle q n (a + 40) := by
  obtain ⟨h1, h2, h3⟩ := recordAt_eq_some.mp hr
  simp [sectionLoop, h1, h2, h3, kSectionRecordSize]

/-- The loop returns the first record accepted by `strcmp`. -/
theorem sectionLoop_first {mem : Mem} {handle : Int} {q : List Nat} (k : Nat) :
    ∀ (n : Nat) (a : Int) (r : SectionRecord), k < n →
      recordAt mem (a + 40 * (k : Int)) = some r → strcmp q (r.name ++ [0]) = 0 →
      (∀ i < k, ∃ ri, recordAt mem (a + 40 * (i : Int)) = some ri ∧
        strcmp q (ri.name ++ [0]) ≠ 0) →
      sectionLoop mem handle q n a =
        .ret (handle + (r.virtualAddress : Int), some r.virtualSize) := by
  induction k with
  | zero =>
    intro n a r hn hr hm _
    obtain ⟨m, rfl⟩ : ∃ m, n = m + 1 := ⟨n - 1, by omega⟩
    have hr0 : recordAt mem a = some r := by simpa using hr
    rw [sectionLoop_succ m hr0, if_pos hm]
  | succ k ih =>
    intro n a r hn hr hm hbefore
    obtain ⟨m, rfl⟩ : ∃ m, n = m + 1 := ⟨n - 1, by omega⟩
    obtain ⟨r0, hr0, hne0⟩ := hbefore 0 (by omega)
    have hr0a : recordAt mem a = some r0 := by simpa using hr0
    rw [sectionLoop_succ m hr0a, if_neg hne0]
    apply ih m (a + 40) r (by omega)
    · have : a + 40 + 40 * (k : Int) = a + 40 * ((k + 1 : Nat) : Int) := by push_cast; ring
      rw [this]; exact hr
    · exact hm
    · intro i hi
      obtain ⟨ri, hri, hnei⟩ := hbefore (i + 1) (by omega)
      refine ⟨ri, ?_, hnei⟩
      have : a + 40 + 40 * (i : Int) = a + 40 * ((i + 1 : Nat) : Int) := by push_cast; ring
      rw [this]; exact hri

/-- The loop returns null, and stores no size, when `strcmp` rejects every
record. -/
theorem sectionLoop_none {mem : Mem} {handle : Int} {q : List Nat} (n : Nat) :
    ∀ (a : Int),
      (∀ i < n, ∃ ri, recordAt mem (a + 40 * (i : Int)) = some ri ∧
        strcmp q (ri.name ++ [0]) ≠ 0) →
      sectionLoop mem handle q n a = .ret (0, none) := by
  induction n with
  | zero => intro a _; rfl
  | succ n ih =>
    intro a hall
    obtain ⟨r0, hr0, hne0⟩ := hall 0 (by omega)
    have hr0a : recordAt mem a = some r0 := by simpa using hr0
    rw [sectionLoop_succ n hr0a, if_neg hne0]
    apply ih
    intro i hi
    obtain ⟨ri, hri, hnei⟩ := hall (i + 1) (by omega)
    refine ⟨ri, ?_, hnei⟩
    have : a + 40 + 40 * (i : Int) = a + 40 * ((i + 1 : Nat) : Int) := by push_cast; ring
    rw [this]; exact hri

/-- Whatever the loop returns comes from a record that `strcmp` accepted, or
is the null result. -/
theorem sectionLoop_ret {mem : Mem} {handle : Int} {q : List Nat} (n : Nat) :
    ∀ (a : Int) (p : Int) (so : Option Nat),
      sectionLoop mem handle q n a = .ret (p, so) →
      (p = 0 ∧ so = none) ∨
      ∃ i r, i < n ∧ recordAt mem (a + 40 * (i : Int)) = some r ∧
        strcmp q (r.name ++ [0]) = 0 ∧ p = handle + (r.virtualAddress : Int) ∧
        so = some r.virtualSize := by
  induction n with
  | zero =>
    intro a p so h
    left
    simp [sectionLoop] at h
    exact ⟨h.1.symm, h.2.symm⟩
  | succ n ih =>
    intro a p so h
    unfold sectionLoop at h
    obtain ⟨sz, h1, h⟩ := bind_eq_ret h
    obtain ⟨va, h2, h⟩ := bind_eq_ret h
    obtain ⟨nm, h3, h⟩ := bind_eq_ret h
    have hr : recordAt mem a = some ⟨nm, sz, va⟩ :=
      recordAt_eq_some.mpr ⟨load_eq_ret h3, load_eq_ret h1, load_eq_ret h2⟩
    by_cases hm : strcmp q (nm ++ [0]) = 0
    · rw [if_pos hm] at h
      right
      refine ⟨0, ⟨nm, sz, va⟩, by omega, by simpa using hr, hm, ?_, ?_⟩
      · simp at h; exact h.1.symm
      · simp at h; exact h.2.symm
    · rw [if_neg hm] at h
      rcases ih _ p so h with hnull | ⟨i, r, hi, hri, hmi, hp, hs⟩
      · exact Or.inl hnull
      · right
        refine ⟨i + 1, r, by omega, ?_, hmi, hp, hs⟩
        have : a + 40 * ((i + 1 : Nat) : Int) = a + kSectionRecordSize + 40 * (i : Int) := by
          unfold kSectionRecordSize; push_cast; ring
        rw [this]; exact hri

/-- With a readable header that carries the signature, the locator is the
loop over the section table. -/
theorem getSectionData_of_header {mem : Mem} {handle e N soh : Int} (q : List Nat)
    (hoff : readI32 mem (handle + 0x3C) = some e)
    (hP : readU8 mem (handle + e) = some 0x50)
    (hE : readU8 mem (handle + e + 1) = some 0x45)
    (hN : readI16 mem (handle + e + 4 + 2) = some N)
    (hS : readI16 mem (handle + e + 4 + 16) = some soh) :
    _swift_getSectionDataPE mem handle q =
      sectionLoop mem handle q N.toNat (recordAddr handle e soh 0) := by
  simp [_swift_getSectionDataPE, kLocationOfNtHeaderOffset, hoff, hP, hE, hN, hS,
    kCoffFileHeaderSize, recordAddr]

/-- A returning call of the locator has read a header with the signature and
returns what the loop over the section table returns. -/
theorem getSectionData_ret_inv {mem : Mem} {base : Int} {q : List Nat} {x : SectionData}
    (hret : _swift_getSectionDataPE mem base q = .ret x) :
    ∃ (e N soh : Int),
      readI32 mem (base + 0x3C) = some e ∧
      readU8 mem (base + e) = some 0x50 ∧ readU8 mem (base + e + 1) = some 0x45 ∧
      readI16 mem (base + e + 4 + 2) = some N ∧
      readI16 mem (base + e + 4 + 16) = some soh ∧
      sectionLoop mem base q N.toNat (recordAddr base e soh 0) = .ret x := by
  unfold _swift_getSectionDataPE at hret
  obtain ⟨e, h1, hret⟩ := bind_eq_ret hret
  obtain ⟨c0, h2, hret⟩ := bind_eq_ret hret
  have h1 := load_eq_ret h1
  have h2 := load_eq_ret h2
  simp only [kLocationOfNtHeaderOffset] at h1
  dsimp only at hret
  by_cases hc0 : c0 = 0x50
  · rw [if_pos hc0] at hret
    obtain ⟨c1, h6, hret⟩ := bind_eq_ret hret
    have h6 := load_eq_ret h6
    simp only [Outcome.pure_eq, Outcome.ret_bind] at hret
    by_cases hc1 : c1 = 0x45
    · simp only [hc1, decide_True, Bool.not_true, Bool.false_eq_true, if_false] at hret
      obtain ⟨N, h4, hret⟩ := bind_eq_ret hret
      obtain ⟨soh, h5, hret⟩ := bind_eq_ret hret
      have h4 := load_eq_ret h4
      have h5 := load_eq_ret h5
      subst hc0 hc1
      refine ⟨e, N, soh, h1, h2, h6, h4, h5, ?_⟩
      have : recordAddr base e soh 0 = base + e + 4 + kCoffFileHeaderSize + soh := by
        unfold recordAddr kCoffFileHeaderSize; push_cast; ring
      rw [this]; exact hret
    · simp [hc1] at hret
  · rw [if_neg hc0] at hret
    simp at hret

/-- A null result stores no size only if nothing matched; a stored size comes
with the pointer `base + relative address`. -/
theorem getSectionData_ret_cases {mem : Mem} {base : Int} {q : List Nat} {p : Int}
    {so : Option Nat} (hret : _swift_getSectionDataPE mem base q = .ret (p, so)) :
    (p = 0 ∧ so = none) ∨ ∃ (va sz : Nat), p = base + (va : Int) ∧ so = some sz := by
  obtain ⟨e, N, soh, -, -, -, -, -, hloop⟩ := getSectionData_ret_inv hret
  rcases sectionLoop_ret _ _ p so hloop with h | ⟨i, r, -, -, -, hp, hs⟩
  · exact Or.inl h
  · exact Or.inr ⟨r.virtualAddress, r.virtualSize, hp, hs⟩

/-- The loop returns when every record up to the count is readable. -/
theorem sectionLoop_total {mem : Mem} {handle : Int} {q : List Nat} (n : Nat) :
    ∀ (a : Int), (∀ i < n, (recordAt mem (a + 40 * (i : Int))).isSome) →
      ∃ x, sectionLoop mem handle q n a = .ret x := by
  induction n with
  | zero => intro a _; exact ⟨(0, none), rfl⟩
  | succ n ih =>
    intro a hall
    have h0 := hall 0 (by omega)
    obtain ⟨r0, hr0⟩ := Option.isSome_iff_exists.mp h0
    have hr0a : recordAt mem a = some r0 := by simpa using hr0
    rw [sectionLoop_succ n hr0a]
    by_cases hm : strcmp q (r0.name ++ [0]) = 0
    · rw [if_pos hm]; exact ⟨_, rfl⟩
    · rw [if_neg hm]
      apply ih
      intro i hi
      have := hall (i + 1) (by omega)
      have e : a + 40 + 40 * (i : Int) = a + 40 * ((i + 1 : Nat) : Int) := by push_cast; ring
      rw [e]; exact this

/-- On a validly signed image the locator returns. -/
theorem validImage_ret {mem : Mem} {handle : Int} (q : List Nat)
    (h : ValidImage mem handle) : ∃ x, _swift_getSectionDataPE mem handle q = .ret x := by
  obtain ⟨e, N, soh, hoff, hP, hE, hN, hS, hrecs⟩ := h
  rw [getSectionData_of_header q hoff hP hE hN hS]
  apply sectionLoop_total
  intro i hi
  have : recordAddr handle e soh 0 + 40 * (i : Int) = recordAddr handle e soh i := by
    unfold recordAddr; push_cast; ring
  rw [this]; exact hrecs i hi

/-! ## The section locator -/

/-- C1: in an image that carries the `PE` signature at the header offset `e`
read at byte `0x3C`, with section count `N` and optional-header size `soh`,
whose `N` records (record `i` at `base + e + 4 + 20 + soh + 40 * i`) have
NUL-padded names, for a NUL-free query `q`: when record `k` is the first whose
name field equals `q` padded to 8 bytes, the locator returns
`base + relative address` of record `k` and stores the size of record `k`.
When exactly one record matches, it is the first one, so it is the one
returned. -/
theorem getSectionDataPE_returns_first_match
    (mem : Mem) (base e N soh : Int) (q : List Nat) (k : Nat) (rk : SectionRecord)
    (hoff : readI32 mem (base + 0x3C) = some e)
    (hP : readU8 mem (base + e) = some 0x50)
    (hE : readU8 mem (base + e + 1) = some 0x45)
    (hN : readI16 mem (base + e + 4 + 2) = some N)
    (hS : readI16 mem (base + e + 4 + 16) = some soh)
    (hrecs : ∀ i < N.toNat, ∃ r,
      recordAt mem (recordAddr base e soh i) = some r ∧ NulPadded r.name)
    (hq : ∀ c ∈ q, c ≠ 0)
    (hk : k < N.toNat)
    (hrk : recordAt mem (recordAddr base e soh k) = some rk)
    (hmatch : rk.name = padName q)
    (hfirst : ∀ i < k, ∀ r,
      recordAt mem (recordAddr base e soh i) = some r → r.name ≠ padName q) :
    _swift_getSectionDataPE mem base q =
      .ret (base + (rk.virtualAddress : Int), some rk.virtualSize) := by
  rw [getSectionData_of_header q hoff hP hE hN hS]
  have haddr : ∀ i : Nat,
      recordAddr base e soh 0 + 40 * (i : Int) = recordAddr base e soh i := by
    intro i; unfold recordAddr; push_cast; ring
  obtain ⟨r, hr, hpad⟩ := hrecs k hk
  have hrr : r = rk := by rw [hrk] at hr; exact (Option.some.inj hr).symm
  subst hrr
  apply sectionLoop_first k N.toNat _ r hk
  · rw [haddr]; exact hrk
  · exact (strcmp_padded_iff q r.name hq hpad).mpr hmatch
  · intro i hi
    obtain ⟨ri, hri, hpadi⟩ := hrecs i (by omega)
    refine ⟨ri, by rw [haddr]; exact hri, ?_⟩
    intro hz
    exact hfirst i hi ri hri ((strcmp_padded_iff q ri.name hq hpadi).mp hz)

/-- C1 at the scenario image: the query `.sw2prtc` returns
`(base + 0x2000, 64)`. -/
theorem getSectionDataPE_returns_first_match_witness :
    _swift_getSectionDataPE scenarioMem 0x10000 (cstr ".sw2prtc") =
      .ret (0x10000 + ((0x2000 : Nat) : Int), some 64) :=
  getSectionDataPE_returns_first_match scenarioMem 0x10000 0x40 2 0 (cstr ".sw2prtc") 0
    ⟨padName (cstr ".sw2prtc"), 64, 0x2000⟩
    (by decide) (by decide) (by decide) (by decide) (by decide)
    (by decide) (by decide) (by decide) (by decide) rfl (by decide)

/-- C2: in an image with a valid signature whose `N` records (`N` may be
zero or negative as read) have NUL-padded names, a NUL-free query that equals
none of the names, padded to 8 bytes, makes the locator return null: it does
not take the fatal path and stores no size. -/
theorem getSectionDataPE_not_found
    (mem : Mem) (base e N soh : Int) (q : List Nat)
    (hoff : readI32 mem (base + 0x3C) = some e)
    (hP : readU8 mem (base + e) = some 0x50)
    (hE : readU8 mem (base + e + 1) = some 0x45)
    (hN : readI16 mem (base + e + 4 + 2) = some N)
    (hS : readI16 mem (base + e + 4 + 16) = some soh)
    (hq : ∀ c ∈ q, c ≠ 0)
    (hrecs : ∀ i < N.toNat, ∃ r,
      recordAt mem (recordAddr base e soh i) = some r ∧ NulPadded r.name ∧
        r.name ≠ padName q) :
    _swift_getSectionDataPE mem base q = .ret (0, none) := by
  rw [getSectionData_of_header q hoff hP hE hN hS]
  apply sectionLoop_none
  intro i hi
  obtain ⟨r, hr, hpad, hne⟩ := hrecs i hi
  refine ⟨r, ?_, fun hz => hne ((strcmp_padded_iff q r.name hq hpad).mp hz)⟩
  have : recordAddr base e soh 0 + 40 * (i : Int) = recordAddr base e soh i := by
    unfold recordAddr; push_cast; ring
  rw [this]; exact hr

/-- C2 at an image whose only section is `ab`: the query `a`, a proper
prefix of the name, is not found. -/
theorem getSectionDataPE_not_found_witness :
    _swift_getSectionDataPE abMem 0x10000 (cstr "a") = .ret (0, none) :=
  getSectionDataPE_not_found abMem 0x10000 0x40 1 0 (cstr "a")
    (by decide) (by decide) (by decide) (by decide) (by decide) (by decide)
    (by decide)

/-- C3: when the two bytes at the header offset read at byte `0x3C` are not
`P` followed by `E`, the locator calls `swift::fatalError` and returns
nothing, whatever the query and the rest of the image. -/
theorem getSectionDataPE_bad_signature
    (mem : Mem) (base e : Int) (q : List Nat) (b0 b1 : Nat)
    (hoff : readI32 mem (base + 0x3C) = some e)
    (h0 : readU8 mem (base + e) = some b0)
    (h1 : readU8 mem (base + e + 1) = some b1)
    (hbad : ¬ (b0 = 0x50 ∧ b1 = 0x45)) :
    _swift_getSectionDataPE mem base q =
      .fatal "_swift_getSectionDataPE()'s finding PE failed" := by
  by_cases hb0 : b0 = 0x50
  · have hb1 : b1 ≠ 0x45 := fun h => hbad ⟨hb0, h⟩
    simp [_swift_getSectionDataPE, kLocationOfNtHeaderOffset, hoff, h0, h1, hb0, hb1]
  · simp [_swift_getSectionDataPE, kLocationOfNtHeaderOffset, hoff, h0, hb0]

/-- C3 at an image whose signature bytes are `P`, `P`. -/
theorem getSectionDataPE_bad_signature_witness :
    _swift_getSectionDataPE unsignedMem 0x10000 (cstr ".sw2prtc") =
      .fatal "_swift_getSectionDataPE()'s finding PE failed" :=
  getSectionDataPE_bad_signature unsignedMem 0x10000 0x40 (cstr ".sw2prtc") 0x50 0x50
    (by decide) (by decide) (by decide) (by decide)

/-- C4, as stated, fails: the image at `0x10000` has one section record whose
name field is `a b NUL x NUL NUL NUL NUL`; the query `ab` gets the descriptor
of that record although the field is not `ab` padded with NUL bytes. -/
theorem getSectionDataPE_field_not_exact :
    readI16 garbageMem (0x10000 + 0x40 + 4 + 2) = some 1 ∧
    recordAt garbageMem (recordAddr 0x10000 0x40 0 0) =
      some ⟨[0x61, 0x62, 0, 0x78, 0, 0, 0, 0], 64, 0x2000⟩ ∧
    ([0x61, 0x62, 0, 0x78, 0, 0, 0, 0] : List Nat) ≠ padName (cstr "ab") ∧
    _swift_getSectionDataPE garbageMem 0x10000 (cstr "ab") = .ret (0x12000, some 64) := by
  decide

/-- C4, amended: for a NUL-free query `q`, whenever the locator returns a
non-null pointer or stores a size, the image carries the signature and the
result is taken from a record `i` of the section table, `i` below the section
count, whose name field read as a C string (its bytes before the first NUL,
all 8 when it has none) equals `q`; the bytes of the field after its first NUL
are not compared. The pointer is `base + relative address` and the stored
size is the size of that record. -/
theorem getSectionDataPE_descriptor_name
    (mem : Mem) (base : Int) (q : List Nat) (p : Int) (so : Option Nat)
    (hq : ∀ c ∈ q, c ≠ 0)
    (hret : _swift_getSectionDataPE mem base q = .ret (p, so))
    (hdesc : p ≠ 0 ∨ so ≠ none) :
    ∃ (e N soh : Int) (i : Nat) (r : SectionRecord),
      readI32 mem (base + 0x3C) = some e ∧
      readU8 mem (base + e) = some 0x50 ∧ readU8 mem (base + e + 1) = some 0x45 ∧
      readI16 mem (base + e + 4 + 2) = some N ∧
      readI16 mem (base + e + 4 + 16) = some soh ∧
      i < N.toNat ∧ recordAt mem (recordAddr base e soh i) = some r ∧
      cstring r.name = q ∧
      p = base + (r.virtualAddress : Int) ∧ so = some r.virtualSize := by
  obtain ⟨e, N, soh, h1, h2, h3, h4, h5, hloop⟩ := getSectionData_ret_inv hret
  rcases sectionLoop_ret _ _ p so hloop with ⟨hp, hs⟩ | ⟨i, r, hi, hr, hm, hp, hs⟩
  · rcases hdesc with hd | hd
    · exact absurd hp hd
    · exact absurd hs hd
  · refine ⟨e, N, soh, i, r, h1, h2, h3, h4, h5, hi, ?_, ?_, hp, hs⟩
    · have : recordAddr base e soh i = recordAddr base e soh 0 + 40 * (i : Int) := by
        unfold recordAddr; push_cast; ring
      rw [this]; exact hr
    · exact (strcmp_name_iff q r.name hq).mp hm

/-- C4, amended, at the image whose only section is `ab`, queried with `ab`. -/
theorem getSectionDataPE_descriptor_name_witness :
    ∃ (e N soh : Int) (i : Nat) (r : SectionRecord),
      readI32 abMem (0x10000 + 0x3C) = some e ∧
      readU8 abMem (0x10000 + e) = some 0x50 ∧ readU8 abMem (0x10000 + e + 1) = some 0x45 ∧
      readI16 abMem (0x10000 + e + 4 + 2) = some N ∧
      readI16 abMem (0x10000 + e + 4 + 16) = some soh ∧
      i < N.toNat ∧ recordAt abMem (recordAddr 0x10000 e soh i) = some r ∧
      cstring r.name = cstr "ab" ∧
      (0x12000 : Int) = 0x10000 + (r.virtualAddress : Int) ∧ some 64 = some r.virtualSize :=
  getSectionDataPE_descriptor_name abMem 0x10000 (cstr "ab") 0x12000 (some 64)
    (by decide) (by decide) (by decide)

/-! ## Facts about runs and the module loop -/

@[simp] theorem Run.bind_eq {α β : Type} (x : Run α) (f : α → Run β) :
    (x >>= f) = Run.bind x f := rfl

@[simp] theorem Run.pure_def {α : Type} (a : α) : (pure a : Run α) = ⟨[], .ret a⟩ := rfl

@[simp] theorem Run.prepend_nil {α : Type} (r : Run α) : Run.prepend [] r = r := by
  cases r; simp [Run.prepend]

@[simp] theorem Run.prepend_prepend {α : Type} (s t : List Event) (r : Run α) :
    Run.prepend s (Run.prepend t r) = Run.prepend (s ++ t) r := by
  simp [Run.prepend]

@[simp] theorem Run.prepend_trace {α : Type} (t : List Event) (r : Run α) :
    (Run.prepend t r).trace = t ++ r.trace := rfl

@[simp] theorem Run.prepend_outcome {α : Type} (t : List Event) (r : Run α) :
    (Run.prepend t r).outcome = r.outcome := rfl

/-- One iteration of the module loop on a module whose name resolves and on
which the callback returns `0`. -/
theorem moduleLoop_succ {δ : Type} (os : Win32) (Callback : PhdrCallback δ) (data : δ)
    (modules : List Int) (n i : Nat) (r : Int) (m : Int)
    (hm : modules[i]? = some m)
    (hname : (os.GetModuleFileNameExA m).ret ≠ 0)
    (hcb : (Callback (hdrOf os m) (2 * os.sizeofHMODULE) data).outcome = .ret 0) :
    moduleLoop os Callback data modules (n + 1) i r =
      Run.prepend (iterationTrace os Callback data m)
        (moduleLoop os Callback data modules n (i + 1) 0) := by
  unfold hdrOf at hcb
  simp [moduleLoop, vectorAt, hm, hname, Run.lift, Run.emit, Run.bind, Run.prepend,
    iterationTrace, hdrOf, hcb]

/-- The module loop over a stretch `ms` of the buffer on which every name
resolves and every callback returns `0`. -/
theorem moduleLoop_prefix {δ : Type} (os : Win32) (Callback : PhdrCallback δ) (data : δ)
    (ms : List Int) :
    ∀ (pre post : List Int) (n : Nat),
      (∀ m ∈ ms, (os.GetModuleFileNameExA m).ret ≠ 0) →
      (∀ m ∈ ms, (Callback (hdrOf os m) (2 * os.sizeofHMODULE) data).outcome = .ret 0) →
      moduleLoop os Callback data (pre ++ ms ++ post) (ms.length + n) pre.length 0 =
        Run.prepend (ms.flatMap (iterationTrace os Callback data))
          (moduleLoop os Callback data (pre ++ ms ++ post) n (pre.length + ms.length) 0) := by
  induction ms with
  | nil => intro pre post n _ _; simp
  | cons m ms ih =>
    intro pre post n hname hcb
    have hm : (pre ++ m :: ms ++ post)[pre.length]? = some m := by
      rw [List.append_assoc, List.getElem?_append_right (Nat.le_refl _)]
      simp
    have hlen : (m :: ms).length + n = (ms.length + n) + 1 := by simp; omega
    rw [hlen, moduleLoop_succ os Callback data _ _ _ _ m hm (hname m (by simp))
      (hcb m (by simp))]
    have hsplit : pre ++ m :: ms ++ post = (pre ++ [m]) ++ ms ++ post := by simp
    have := ih (pre ++ [m]) post n (fun x hx => hname x (by simp [hx]))
      (fun x hx => hcb x (by simp [hx]))
    rw [hsplit]
    simp only [List.length_append, List.length_singleton] at this
    rw [this]
    simp [Run.prepend, List.flatMap_cons, Nat.add_assoc, Nat.add_comm 1]

/-! ## Facts about `_addImageCallback` and `_swift_dl_iterate_phdr` -/

/-- What `_addImageCallback` does on the header built for the module `m`, by
the result of the locator on the handle the module resolves to. -/
theorem addImageCallback_hdrOf (os : Win32) (m : Int) (size : Nat) (args : InspectArgs) :
    _addImageCallback os (hdrOf os m) size args =
      match _swift_getSectionDataPE os.mem (resolvedHandle os m) args.sectionName with
      | .ret (p, so) =>
        if p ≠ 0 then
          match so with
          | some sz =>
            ⟨[.getSectionData (resolvedHandle os m) args.sectionName,
              .addImageBlock args.fnAddImageBlock p sz], .ret 0⟩
          | none =>
            ⟨[.getSectionData (resolvedHandle os m) args.sectionName],
              .undefined .uninitializedRead⟩
        else ⟨[.getSectionData (resolvedHandle os m) args.sectionName], .ret 0⟩
      | .fatal msg => ⟨[.getSectionData (resolvedHandle os m) args.sectionName], .fatal msg⟩
      | .undefined u =>
        ⟨[.getSectionData (resolvedHandle os m) args.sectionName], .undefined u⟩ := by
  unfold _addImageCallback hdrOf resolvedHandle
  dsimp only
  generalize (if (os.GetModuleFileNameExA m).modName.headD 0 = 0 then os.GetModuleHandle
    else os.GetModuleHandleA (os.GetModuleFileNameExA m).modName) = handle
  generalize hres : _swift_getSectionDataPE os.mem handle args.sectionName = res
  rcases res with ⟨p, so⟩ | msg | u
  · by_cases hp : p = 0
    · simp [Run.bind, Run.emit, Run.lift, hp]
    · cases so with
      | none => simp [Run.bind, Run.emit, Run.lift, hp]
      | some sz => simp [Run.bind, Run.emit, Run.lift, hp]
  · simp [Run.bind, Run.emit, Run.lift]
  · simp [Run.bind, Run.emit, Run.lift]

/-- After a successful enumeration the scan is the module loop over the
buffer, up to `neededSize / sizeof(HMODULE)`. -/
theorem iterate_of_enumerate {δ : Type} {os : Win32} (Callback : PhdrCallback δ) (data : δ)
    {evs : List Event} {modules : List Int} {neededSize : Nat}
    (henum : enumerateModules os = ⟨evs, .ret (modules, neededSize)⟩) :
    _swift_dl_iterate_phdr os Callback data =
      Run.prepend evs
        (moduleLoop os Callback data modules (neededSize / os.sizeofHMODULE) 0 0) := by
  unfold _swift_dl_iterate_phdr
  simp [henum, Run.bind, Run.prepend]

/-- When the enumeration stops, the scan stops with it and makes no further
call. -/
theorem iterate_of_enumerate_fatal {δ : Type} {os : Win32} (Callback : PhdrCallback δ)
    (data : δ) {evs : List Event} {msg : String}
    (henum : enumerateModules os = ⟨evs, .fatal msg⟩) :
    _swift_dl_iterate_phdr os Callback data = ⟨evs, .fatal msg⟩ := by
  unfold _swift_dl_iterate_phdr
  simp [henum, Run.bind]

/-- The enumeration of lines 58-88, by cases. -/
theorem enumerateModules_eq (os : Win32) :
    enumerateModules os =
      if os.OpenProcess = 0 then ⟨[], .fatal "OpenProcess() failed"⟩
      else if (os.EnumProcessModules 0 (cbOf os initialModules)).ret = false then
        ⟨[.enumProcessModules (cbOf os initialModules)], .fatal "EnumProcessModules() failed"⟩
      else if (storeHandles os 0 initialModules).length * os.sizeofHMODULE < firstNeeded os then
        if (os.EnumProcessModules 1 (cbOf os (resizedModules os))).ret = false then
          ⟨[.enumProcessModules (cbOf os initialModules),
            .enumProcessModules (cbOf os (resizedModules os))],
            .fatal "EnumProcessModules() failed"⟩
        else
          ⟨[.enumProcessModules (cbOf os initialModules),
            .enumProcessModules (cbOf os (resizedModules os))],
            .ret (storeHandles os 1 (resizedModules os),
              toDWORD (os.EnumProcessModules 1 (cbOf os (resizedModules os))).neededSize)⟩
      else
        ⟨[.enumProcessModules (cbOf os initialModules)],
          .ret (storeHandles os 0 initialModules, firstNeeded os)⟩ := by
  unfold enumerateModules resizedModules firstNeeded
  dsimp only
  by_cases hopen : os.OpenProcess = 0
  · simp [hopen, Run.lift]
  · by_cases h1 : (os.EnumProcessModules 0 (cbOf os initialModules)).ret = false
    · simp [hopen, h1, enumProcessModules, Run.bind, Run.lift]
    · have h1t := Bool.eq_true_of_not_eq_false h1
      by_cases h2 : (storeHandles os 0 initialModules).length * os.sizeofHMODULE <
          toDWORD (os.EnumProcessModules 0 (cbOf os initialModules)).neededSize
      · by_cases h3 : (os.EnumProcessModules 1 (cbOf os (resize
            (storeHandles os 0 initialModules)
            (toDWORD (os.EnumProcessModules 0 (cbOf os initialModules)).neededSize /
              os.sizeofHMODULE)))).ret = false
        · simp [hopen, h1t, h2, h3, enumProcessModules, Run.bind, Run.lift]
        · have h3t := Bool.eq_true_of_not_eq_false h3
          simp [hopen, h1t, h2, h3t, enumProcessModules, Run.bind, Run.lift]
      · simp [hopen, h1t, h2, enumProcessModules, Run.bind, Run.lift]

/-- The enumeration records nothing but its `EnumProcessModules` calls. -/
theorem enumerateModules_trace_mem {os : Win32} {e : Event}
    (h : e ∈ (enumerateModules os).trace) : ∃ cb, e = .enumProcessModules cb := by
  rw [enumerateModules_eq] at h
  split_ifs at h <;> simp at h
  · exact ⟨_, h⟩
  · rcases h with h | h <;> exact ⟨_, h⟩
  · rcases h with h | h <;> exact ⟨_, h⟩
  · exact ⟨_, h⟩

/-- On a module that resolves to a validly signed image at a non-null handle,
`_addImageCallback` looks the section up once, invokes the consumer exactly
when the locator finds the section, and returns `0`. -/
theorem addImageCallback_valid (os : Win32) (m : Int) (size : Nat) (args : InspectArgs)
    (hpos : 0 < resolvedHandle os m) (hvalid : ValidImage os.mem (resolvedHandle os m)) :
    _addImageCallback os (hdrOf os m) size args =
      ⟨.getSectionData (resolvedHandle os m) args.sectionName ::
        (sectionHit os args m).toList.map fun x => .addImageBlock x.1 x.2.1 x.2.2,
        .ret 0⟩ := by
  rw [addImageCallback_hdrOf]
  unfold sectionHit
  obtain ⟨⟨p, so⟩, hx⟩ := validImage_ret args.sectionName hvalid
  rw [hx]
  rcases getSectionData_ret_cases hx with ⟨hp, hs⟩ | ⟨va, sz, hp, hs⟩
  · subst hp hs; simp
  · subst hs
    have hne : p ≠ 0 := by omega
    simp [hne]

theorem callbacksOf_append (s t : List Event) :
    callbacksOf (s ++ t) = callbacksOf s ++ callbacksOf t := by
  simp [callbacksOf]

theorem lookupsOf_append (s t : List Event) :
    lookupsOf (s ++ t) = lookupsOf s ++ lookupsOf t := by
  simp [lookupsOf]

theorem blocksOf_append (s t : List Event) :
    blocksOf (s ++ t) = blocksOf s ++ blocksOf t := by
  simp [blocksOf]

/-- The calls of the enumeration are `EnumProcessModules` calls only. -/
theorem enumerate_projections {os : Win32} {evs : List Event} {o : Outcome ModuleBuffer}
    (henum : enumerateModules os = ⟨evs, o⟩) :
    callbacksOf evs = [] ∧ lookupsOf evs = [] ∧ blocksOf evs = [] := by
  have hall : ∀ e ∈ evs, ∃ cb, e = .enumProcessModules cb := by
    intro e he
    have hmem : e ∈ (enumerateModules os).trace := by rw [henum]; exact he
    exact enumerateModules_trace_mem hmem
  clear henum
  induction evs with
  | nil => simp [callbacksOf, lookupsOf, blocksOf]
  | cons e es ih =>
    obtain ⟨cb, rfl⟩ := hall _ (List.mem_cons_self _ _)
    have := ih (fun x hx => hall x (List.mem_cons_of_mem _ hx))
    simp only [callbacksOf, lookupsOf, blocksOf, List.filterMap_cons] at this ⊢
    exact this

/-- The traces of the loop iterations over modules that resolve to validly
signed images, projected on the three kinds of calls. -/
theorem iterations_projections (os : Win32) (args : InspectArgs) (ms : List Int)
    (hpos : ∀ m ∈ ms, 0 < resolvedHandle os m)
    (hvalid : ∀ m ∈ ms, ValidImage os.mem (resolvedHandle os m)) :
    callbacksOf (ms.flatMap (iterationTrace os (_addImageCallback os) args)) =
        ms.map (fun m => (m, (os.GetModuleFileNameExA m).modName)) ∧
    lookupsOf (ms.flatMap (iterationTrace os (_addImageCallback os) args)) =
        ms.map (resolvedHandle os) ∧
    blocksOf (ms.flatMap (iterationTrace os (_addImageCallback os) args)) =
        ms.filterMap (sectionHit os args) := by
  induction ms with
  | nil => simp [callbacksOf, lookupsOf, blocksOf]
  | cons m ms ih =>
    obtain ⟨ih1, ih2, ih3⟩ := ih (fun x hx => hpos x (List.mem_cons_of_mem _ hx))
      (fun x hx => hvalid x (List.mem_cons_of_mem _ hx))
    have hrun := addImageCallback_valid os m (2 * os.sizeofHMODULE) args
      (hpos m (List.mem_cons_self _ _)) (hvalid m (List.mem_cons_self _ _))
    simp only [List.flatMap_cons, callbacksOf_append, lookupsOf_append, blocksOf_append,
      ih1, ih2, ih3, iterationTrace, hrun]
    cases hhit : sectionHit os args m with
    | none => simp [callbacksOf, lookupsOf, blocksOf, hhit]
    | some x => simp [callbacksOf, lookupsOf, blocksOf, hhit]

/-! ## The scan -/

/-- C5: after a successful enumeration that leaves the modules `ms` (the
first `neededSize / sizeof(HMODULE)` entries of the buffer), all with
resolvable names and all resolving to validly signed images at non-null
handles, and for every section name: the per-module callback returns `0` on
every module, the scan returns, the per-module callback and the section
lookup are made once for every module in enumeration order, and the consumer
invocations are exactly, in enumeration order, one `(address, size)` per
module in which the locator finds the section. -/
theorem addImage_scan_every_module
    (os : Win32) (args : InspectArgs) (evs : List Event) (modules : List Int)
    (neededSize : Nat) (ms : List Int)
    (henum : enumerateModules os = ⟨evs, .ret (modules, neededSize)⟩)
    (hms : modules.take (neededSize / os.sizeofHMODULE) = ms)
    (hlen : ms.length = neededSize / os.sizeofHMODULE)
    (hname : ∀ m ∈ ms, (os.GetModuleFileNameExA m).ret ≠ 0)
    (hpos : ∀ m ∈ ms, 0 < resolvedHandle os m)
    (hvalid : ∀ m ∈ ms, ValidImage os.mem (resolvedHandle os m)) :
    (∀ m ∈ ms,
      (_addImageCallback os (hdrOf os m) (2 * os.sizeofHMODULE) args).outcome = .ret 0) ∧
    (_swift_dl_iterate_phdr os (_addImageCallback os) args).outcome = .ret 0 ∧
    callbacksOf (_swift_dl_iterate_phdr os (_addImageCallback os) args).trace =
      ms.map (fun m => (m, (os.GetModuleFileNameExA m).modName)) ∧
    lookupsOf (_swift_dl_iterate_phdr os (_addImageCallback os) args).trace =
      ms.map (resolvedHandle os) ∧
    blocksOf (_swift_dl_iterate_phdr os (_addImageCallback os) args).trace =
      ms.filterMap (sectionHit os args) := by
  have hcb : ∀ m ∈ ms,
      (_addImageCallback os (hdrOf os m) (2 * os.sizeofHMODULE) args).outcome = .ret 0 := by
    intro m hm
    rw [addImageCallback_valid os m _ args (hpos m hm) (hvalid m hm)]
  have hsplit : modules = [] ++ ms ++ modules.drop (neededSize / os.sizeofHMODULE) := by
    rw [← hms]; simp
  have hloop := moduleLoop_prefix os (_addImageCallback os) args ms []
    (modules.drop (neededSize / os.sizeofHMODULE)) 0 hname hcb
  rw [← hsplit] at hloop
  simp only [Nat.add_zero, List.length_nil, Nat.zero_add, hlen] at hloop
  have hrun := iterate_of_enumerate (_addImageCallback os) args henum
  rw [hloop] at hrun
  obtain ⟨e1, e2, e3⟩ := enumerate_projections henum
  obtain ⟨p1, p2, p3⟩ := iterations_projections os args ms hpos hvalid
  refine ⟨hcb, ?_, ?_, ?_, ?_⟩
  · rw [hrun]; simp [moduleLoop]
  · rw [hrun]; simp [moduleLoop, callbacksOf_append, e1, p1]
  · rw [hrun]; simp [moduleLoop, lookupsOf_append, e2, p2]
  · rw [hrun]; simp [moduleLoop, blocksOf_append, e3, p3]

/-- C5 at a process with three modules of which the first and the third
contain `.sw2prtc`: three lookups, two consumer invocations. -/
theorem addImage_scan_every_module_witness :
    lookupsOf (_swift_dl_iterate_phdr threeModules (_addImageCallback threeModules)
      protocolArgs).trace = [0x10000, 0x20000, 0x30000] ∧
    blocksOf (_swift_dl_iterate_phdr threeModules (_addImageCallback threeModules)
      protocolArgs).trace =
      [(.addImageProtocolConformanceBlockCallback, 0x12000, 64),
       (.addImageProtocolConformanceBlockCallback, 0x33000, 48)] := by
  have h := addImage_scan_every_module threeModules protocolArgs
    [.enumProcessModules 8192]
    ([0x10000, 0x20000, 0x30000] ++ List.replicate 1021 0) 24
    [0x10000, 0x20000, 0x30000]
    (by decide) (by decide) (by decide) (by decide) (by decide)
    (by
      intro m hm
      simp only [List.mem_cons, List.mem_singleton, List.not_mem_nil, or_false] at hm
      rcases hm with rfl | rfl | rfl
      · exact ⟨0x40, 2, 0, by decide, by decide, by decide, by decide, by decide, by decide⟩
      · exact ⟨0x40, 1, 0, by decide, by decide, by decide, by decide, by decide, by decide⟩
      · exact ⟨0x40, 1, 0, by decide, by decide, by decide, by decide, by decide, by decide⟩)
  exact ⟨h.2.2.2.1.trans (by decide), h.2.2.2.2.trans (by decide)⟩

theorem Run.bind_const_trace {α β : Type} (x : Run α) (b : β) :
    (Run.bind x fun _ => (⟨[], .ret b⟩ : Run β)).trace = x.trace := by
  rcases x with ⟨tr, oc⟩
  rcases oc with v | msg | u <;> simp [Run.bind]

theorem initializeProtocolConformanceLookup_trace (os : Win32) :
    (initializeProtocolConformanceLookup os).trace =
      (_swift_dl_iterate_phdr os (_addImageCallback os) protocolArgs).trace :=
  Run.bind_const_trace (_swift_dl_iterate_phdr os (_addImageCallback os) protocolArgs) ()

theorem initializeTypeMetadataRecordLookup_trace (os : Win32) :
    (initializeTypeMetadataRecordLookup os).trace =
      (_swift_dl_iterate_phdr os (_addImageCallback os) typeMetadataArgs).trace :=
  Run.bind_const_trace (_swift_dl_iterate_phdr os (_addImageCallback os) typeMetadataArgs) ()

/-- Whatever the loop returns with a stored size comes from the first record
that `strcmp` accepts. -/
theorem sectionLoop_ret_first {mem : Mem} {handle : Int} {q : List Nat} (n : Nat) :
    ∀ (a : Int) (p : Int) (sz : Nat),
      sectionLoop mem handle q n a = .ret (p, some sz) →
      ∃ i r, i < n ∧ recordAt mem (a + 40 * (i : Int)) = some r ∧
        strcmp q (r.name ++ [0]) = 0 ∧ p = handle + (r.virtualAddress : Int) ∧
        sz = r.virtualSize ∧
        ∀ k < i, ∃ rk, recordAt mem (a + 40 * (k : Int)) = some rk ∧
          strcmp q (rk.name ++ [0]) ≠ 0 := by
  induction n with
  | zero =>
    intro a p sz h
    simp [sectionLoop] at h
  | succ n ih =>
    intro a p sz h
    unfold sectionLoop at h
    obtain ⟨vs, h1, h⟩ := bind_eq_ret h
    obtain ⟨va, h2, h⟩ := bind_eq_ret h
    obtain ⟨nm, h3, h⟩ := bind_eq_ret h
    have hr : recordAt mem a = some ⟨nm, vs, va⟩ :=
      recordAt_eq_some.mpr ⟨load_eq_ret h3, load_eq_ret h1, load_eq_ret h2⟩
    by_cases hm : strcmp q (nm ++ [0]) = 0
    · rw [if_pos hm] at h
      simp at h
      refine ⟨0, ⟨nm, vs, va⟩, by omega, by simpa using hr, hm, h.1.symm, h.2.symm, ?_⟩
      intro k hk
      omega
    · rw [if_neg hm] at h
      obtain ⟨i, r, hi, hri, hmi, hp, hs, hfirst⟩ := ih _ p sz h
      have hshift : ∀ k : Nat,
          a + 40 * ((k + 1 : Nat) : Int) = a + kSectionRecordSize + 40 * (k : Int) := by
        intro k; unfold kSectionRecordSize; push_cast; ring
      refine ⟨i + 1, r, by omega, by rw [hshift]; exact hri, hmi, hp, hs, ?_⟩
      intro k hk
      cases k with
      | zero => exact ⟨⟨nm, vs, va⟩, by simpa using hr, hm⟩
      | succ k =>
        obtain ⟨rk, hrk, hnk⟩ := hfirst k (by omega)
        exact ⟨rk, by rw [hshift]; exact hrk, hnk⟩

/-- A consumer invocation recorded by `_addImageCallback` on the header of the
module `m` follows the lookup on the handle that `m` resolves to and carries
the non-null pointer and the size that the lookup returned. -/
theorem addImageCallback_hdrOf_block {os : Win32} {m : Int} {size : Nat}
    {args : InspectArgs} {fn : BlockCallback} {a : Int} {sz : Nat}
    (h : Event.addImageBlock fn a sz ∈ (_addImageCallback os (hdrOf os m) size args).trace) :
    fn = args.fnAddImageBlock ∧ a ≠ 0 ∧
      _swift_getSectionDataPE os.mem (resolvedHandle os m) args.sectionName =
        .ret (a, some sz) ∧
      Event.getSectionData (resolvedHandle os m) args.sectionName ∈
        (_addImageCallback os (hdrOf os m) size args).trace := by
  rw [addImageCallback_hdrOf] at h ⊢
  generalize hres : _swift_getSectionDataPE os.mem (resolvedHandle os m) args.sectionName =
    res at h ⊢
  rcases res with ⟨p, so⟩ | msg | u
  · by_cases hp : p = 0
    · simp [hp] at h
    · cases so with
      | none => simp [hp] at h
      | some s =>
        simp [hp] at h
        obtain ⟨rfl, rfl, rfl⟩ := h
        simp [hp]
  · simp at h
  · simp at h

/-- The trace of one iteration of the module loop on a module whose name
resolves: the calls of the iteration, then those of the rest of the loop when
the callback returns `0`. -/
theorem moduleLoop_succ_trace {δ : Type} (os : Win32) (Callback : PhdrCallback δ) (data : δ)
    (modules : List Int) (n i : Nat) (r : Int) (m : Int)
    (hm : modules[i]? = some m)
    (hname : (os.GetModuleFileNameExA m).ret ≠ 0) :
    (moduleLoop os Callback data modules (n + 1) i r).trace =
      iterationTrace os Callback data m ++
        (if (Callback (hdrOf os m) (2 * os.sizeofHMODULE) data).outcome = .ret 0 then
          (moduleLoop os Callback data modules n (i + 1) 0).trace
        else []) := by
  obtain ⟨c, hc⟩ : ∃ c, Callback (hdrOf os m) (2 * os.sizeofHMODULE) data = c := ⟨_, rfl⟩
  unfold iterationTrace
  rw [hc]
  unfold hdrOf at hc
  rcases c with ⟨tr, oc⟩
  rcases oc with v | msg | u
  · by_cases hv : v = 0
    · simp [moduleLoop, vectorAt, hm, Run.lift, Run.bind, hname, Run.emit, hv, hc]
    · simp [moduleLoop, vectorAt, hm, Run.lift, Run.bind, hname, Run.emit, hv, hc]
  · simp [moduleLoop, vectorAt, hm, Run.lift, Run.bind, hname, Run.emit, hc]
  · simp [moduleLoop, vectorAt, hm, Run.lift, Run.bind, hname, Run.emit, hc]

/-- Every call in the trace of the module loop is a per-module callback
invocation or is made by the callback on the header of a module that the loop
read from the buffer, below the loop bound, and on which the callback was
invoked. -/
theorem moduleLoop_trace_origin {δ : Type} {os : Win32} {Callback : PhdrCallback δ}
    {data : δ} {modules : List Int} {e : Event} (n : Nat) :
    ∀ (i : Nat) (r : Int), e ∈ (moduleLoop os Callback data modules n i r).trace →
      (∃ a nm, e = .callback a nm) ∨
      ∃ j m, i ≤ j ∧ j < i + n ∧ modules[j]? = some m ∧
        Event.callback m (os.GetModuleFileNameExA m).modName ∈
          (moduleLoop os Callback data modules n i r).trace ∧
        e ∈ (Callback (hdrOf os m) (2 * os.sizeofHMODULE) data).trace ∧
        ∀ x ∈ (Callback (hdrOf os m) (2 * os.sizeofHMODULE) data).trace,
          x ∈ (moduleLoop os Callback data modules n i r).trace := by
  induction n with
  | zero => intro i r h; simp [moduleLoop] at h
  | succ n ih =>
    intro i r h
    cases hm : modules[i]? with
    | none => simp [moduleLoop, vectorAt, hm, Run.lift, Run.bind] at h
    | some m =>
      by_cases hname : (os.GetModuleFileNameExA m).ret = 0
      · simp [moduleLoop, vectorAt, hm, Run.lift, Run.bind, hname] at h
      · have htr := moduleLoop_succ_trace os Callback data modules n i r m hm hname
        rw [htr] at h ⊢
        rcases List.mem_append.mp h with h1 | h2
        · unfold iterationTrace at h1
          rcases List.mem_cons.mp h1 with h1 | h1
          · exact Or.inl ⟨_, _, h1⟩
          · right
            refine ⟨i, m, Nat.le_refl _, by omega, hm, ?_, h1, ?_⟩
            · apply List.mem_append_left
              unfold iterationTrace
              exact List.mem_cons_self _ _
            · intro x hx
              apply List.mem_append_left
              unfold iterationTrace
              exact List.mem_cons_of_mem _ hx
        · by_cases hc : (Callback (hdrOf os m) (2 * os.sizeofHMODULE) data).outcome = .ret 0
          · rw [if_pos hc] at h2 ⊢
            rcases ih (i + 1) 0 h2 with hcb | ⟨j, m2, hij, hjn, hj, hcall, hmem, hall⟩
            · exact Or.inl hcb
            · right
              refine ⟨j, m2, by omega, by omega, hj, List.mem_append_right _ hcall, hmem, ?_⟩
              intro x hx
              exact List.mem_append_right _ (hall x hx)
          · rw [if_neg hc] at h2
            simp at h2

/-- A consumer invocation recorded by a scan with `_addImageCallback` is the
section of an enumerated module and has a non-null address. -/
theorem scan_block_mem {os : Win32} {args : InspectArgs} {fn : BlockCallback} {a : Int}
    {sz : Nat} (hq : ∀ c ∈ args.sectionName, c ≠ 0)
    (h : Event.addImageBlock fn a sz ∈
      (_swift_dl_iterate_phdr os (_addImageCallback os) args).trace) :
    fn = args.fnAddImageBlock ∧ a ≠ 0 ∧
      MatchedRange os args (_swift_dl_iterate_phdr os (_addImageCallback os) args).trace
        a sz := by
  obtain ⟨en, hen⟩ : ∃ en, enumerateModules os = en := ⟨_, rfl⟩
  rcases en with ⟨evs, oc⟩
  rcases oc with ⟨modules, neededSize⟩ | msg | u
  · have hrun := iterate_of_enumerate (_addImageCallback os) args hen
    rw [hrun] at h ⊢
    simp only [Run.prepend_trace] at h ⊢
    rcases List.mem_append.mp h with h1 | h2
    · have hin : Event.addImageBlock fn a sz ∈ (enumerateModules os).trace := by
        rw [hen]; exact h1
      obtain ⟨cb, hcb⟩ := enumerateModules_trace_mem hin
      cases hcb
    · rcases moduleLoop_trace_origin _ _ _ h2 with ⟨x, nm, hx⟩ |
        ⟨j, m, -, hjn, hj, hcall, hmem, hall⟩
      · cases hx
      · obtain ⟨hfn, hne, hret, hlook⟩ := addImageCallback_hdrOf_block hmem
        refine ⟨hfn, hne, ?_⟩
        obtain ⟨e, N, soh, hoff, hP, hE, hN, hS, hloop⟩ := getSectionData_ret_inv hret
        obtain ⟨i, r, hi, hr, hmatch, hp, hs, hfirst⟩ := sectionLoop_ret_first _ _ _ _ hloop
        have haddr : ∀ k : Nat, recordAddr (resolvedHandle os m) e soh 0 + 40 * (k : Int) =
            recordAddr (resolvedHandle os m) e soh k := by
          intro k; unfold recordAddr; push_cast; ring
        refine ⟨evs, modules, neededSize, j, m, e, N, soh, i, r, hen, by omega, hj,
          List.mem_append_right _ hcall, List.mem_append_right _ (hall _ hlook),
          hoff, hP, hE, hN, hS, hi, by rw [← haddr]; exact hr,
          (strcmp_name_iff _ r.name hq).mp hmatch, ?_, hp, hs⟩
        intro k hk
        obtain ⟨rk, hrk, hnk⟩ := hfirst k hk
        refine ⟨rk, by rw [← haddr]; exact hrk, ?_⟩
        intro hc
        exact hnk ((strcmp_name_iff _ rk.name hq).mpr hc)
  · have hrun := iterate_of_enumerate_fatal (_addImageCallback os) args hen
    rw [hrun] at h
    have hin : Event.addImageBlock fn a sz ∈ (enumerateModules os).trace := by
      rw [hen]; exact h
    obtain ⟨cb, hcb⟩ := enumerateModules_trace_mem hin
    cases hcb
  · exfalso
    have hmem : ∀ x ∈ (_swift_dl_iterate_phdr os (_addImageCallback os) args).trace,
        x ∈ (enumerateModules os).trace := by
      intro x hx
      unfold _swift_dl_iterate_phdr at hx
      simpa [hen, Run.bind] using hx
    obtain ⟨cb, hcb⟩ := enumerateModules_trace_mem (hmem _ h)
    cases hcb

/-- C6, as stated, fails: the process has one module whose `.sw2prtc` record
declares size 0; the scan invokes the consumer with the address `0x12000` and
the size 0. -/
theorem addImageBlock_zero_size :
    initializeProtocolConformanceLookup zeroSizeProcess =
      ⟨[.enumProcessModules 8192, .callback 0x10000 (cstr "a.exe"),
        .getSectionData 0x10000 ProtocolConformancesSection,
        .addImageBlock .addImageProtocolConformanceBlockCallback 0x12000 0], .ret ()⟩ := by
  decide

/-- C6, amended: in both scans, over every process, every invocation of the
consumer callback has a non-null address and is the section of an enumerated
module: the module was read from the buffer below the loop bound, the
per-module callback was invoked on it and the locator was called on the
handle it resolves to; the image at that handle carries the signature; the
address is that handle plus the relative address, and the size is the size
declared, by the first record of the section table of that image whose name
read as a C string is the section name of the scan. The size is zero when
that record declares size 0. -/
theorem addImageBlock_range (os : Win32) (fn : BlockCallback) (a : Int) (sz : Nat) :
    (Event.addImageBlock fn a sz ∈ (initializeProtocolConformanceLookup os).trace →
      fn = .addImageProtocolConformanceBlockCallback ∧ a ≠ 0 ∧
      MatchedRange os protocolArgs (initializeProtocolConformanceLookup os).trace a sz) ∧
    (Event.addImageBlock fn a sz ∈ (initializeTypeMetadataRecordLookup os).trace →
      fn = .addImageTypeMetadataRecordBlockCallback ∧ a ≠ 0 ∧
      MatchedRange os typeMetadataArgs (initializeTypeMetadataRecordLookup os).trace a sz) := by
  constructor
  · intro h
    rw [initializeProtocolConformanceLookup_trace] at h ⊢
    have hq : ∀ c ∈ protocolArgs.sectionName, c ≠ 0 := by decide
    exact scan_block_mem hq h
  · intro h
    rw [initializeTypeMetadataRecordLookup_trace] at h ⊢
    have hq : ∀ c ∈ typeMetadataArgs.sectionName, c ≠ 0 := by decide
    exact scan_block_mem hq h

/-- C6, amended, at the process whose `.sw2prtc` record declares size 0: the
invocation `(0x12000, 0)` has a non-null address and is the section of the
enumerated module. -/
theorem addImageBlock_range_witness :
    (0x12000 : Int) ≠ 0 ∧
    MatchedRange zeroSizeProcess protocolArgs
      (initializeProtocolConformanceLookup zeroSizeProcess).trace 0x12000 0 :=
  ((addImageBlock_range zeroSizeProcess .addImageProtocolConformanceBlockCallback
    0x12000 0).1 (by decide)).2

/-- C7: the code at a module whose name does not resolve. The process
enumerates `b.dll`, for which `GetModuleHandleA` returns null, before `a.exe`,
which has the section. `_addImageCallback` passes the null handle to the
locator, which reads the header offset at address `0x3C`, where nothing is
mapped: the module is not skipped, the callback does not return `0`, and the
scan never reaches `a.exe`. -/
theorem addImageCallback_null_handle :
    resolvedHandle unresolvedProcess 0x20000 = 0 ∧
    _addImageCallback unresolvedProcess (hdrOf unresolvedProcess 0x20000) 16 protocolArgs =
      ⟨[.getSectionData 0 ProtocolConformancesSection],
        .undefined (.unmappedRead 0x3C)⟩ ∧
    initializeProtocolConformanceLookup unresolvedProcess =
      ⟨[.enumProcessModules 8192, .callback 0x20000 (cstr "b.dll"),
        .getSectionData 0 ProtocolConformancesSection],
        .undefined (.unmappedRead 0x3C)⟩ := by
  decide

theorem storeHandles_length (os : Win32) (k : Nat) (modules : List Int) :
    (storeHandles os k modules).length = modules.length := by
  unfold storeHandles
  simp only [List.length_append, List.length_drop, List.length_take]
  omega

theorem initialModules_length : initialModules.length = 1024 := by
  simp [initialModules]

/-- C8, as stated, fails: the process enumerates `a.exe`, which has the
section, and then a module whose name resolution fails. The run ends in the
fatal path after the per-module callback and the consumer callback have been
invoked for `a.exe`. -/
theorem iterate_name_failure_after_callback :
    initializeProtocolConformanceLookup nameFailureProcess =
      ⟨[.enumProcessModules 8192, .callback 0x10000 (cstr "a.exe"),
        .getSectionData 0x10000 ProtocolConformancesSection,
        .addImageBlock .addImageProtocolConformanceBlockCallback 0x12000 64],
        .fatal "GetModuleFileNameExA() failed"⟩ := by
  decide

/-- C8, amended: in `_swift_dl_iterate_phdr`, when the process handle is not
acquired, or the first enumeration query fails, or the second query after
the resize fails, the run ends in the fatal path and the per-module callback
is invoked for no module. When name resolution fails for an enumerated
module `m` that the loop reaches (the names of the modules `pre` before it
resolve and the callback returns `0` on each of them), the run ends in the
fatal path at `m`: the callback has been invoked, in order, for the modules
before `m` and is invoked for no module from `m` on. -/
theorem iterate_failure {δ : Type} (os : Win32) (Callback : PhdrCallback δ) (data : δ) :
    (os.OpenProcess = 0 →
      _swift_dl_iterate_phdr os Callback data = ⟨[], .fatal "OpenProcess() failed"⟩) ∧
    (os.OpenProcess ≠ 0 →
      (os.EnumProcessModules 0 (cbOf os initialModules)).ret = false →
      _swift_dl_iterate_phdr os Callback data =
        ⟨[.enumProcessModules (cbOf os initialModules)],
          .fatal "EnumProcessModules() failed"⟩) ∧
    (os.OpenProcess ≠ 0 →
      (os.EnumProcessModules 0 (cbOf os initialModules)).ret = true →
      1024 * os.sizeofHMODULE < firstNeeded os →
      (os.EnumProcessModules 1 (cbOf os (resizedModules os))).ret = false →
      _swift_dl_iterate_phdr os Callback data =
        ⟨[.enumProcessModules (cbOf os initialModules),
          .enumProcessModules (cbOf os (resizedModules os))],
          .fatal "EnumProcessModules() failed"⟩) ∧
    (∀ (evs : List Event) (modules : List Int) (neededSize : Nat)
        (pre : List Int) (m : Int) (post : List Int),
      enumerateModules os = ⟨evs, .ret (modules, neededSize)⟩ →
      modules = pre ++ m :: post →
      pre.length < neededSize / os.sizeofHMODULE →
      (∀ x ∈ pre, (os.GetModuleFileNameExA x).ret ≠ 0 ∧
        (Callback (hdrOf os x) (2 * os.sizeofHMODULE) data).outcome = .ret 0) →
      (os.GetModuleFileNameExA m).ret = 0 →
      _swift_dl_iterate_phdr os Callback data =
        ⟨evs ++ pre.flatMap (iterationTrace os Callback data),
          .fatal "GetModuleFileNameExA() failed"⟩) := by
  refine ⟨?_, ?_, ?_, ?_⟩
  · intro hopen
    apply iterate_of_enumerate_fatal
    rw [enumerateModules_eq, if_pos hopen]
  · intro hopen h1
    apply iterate_of_enumerate_fatal
    rw [enumerateModules_eq, if_neg hopen, if_pos h1]
  · intro hopen h1 h2 h3
    apply iterate_of_enumerate_fatal
    have h1f : ¬ (os.EnumProcessModules 0 (cbOf os initialModules)).ret = false := by
      rw [h1]; decide
    have h2len : (storeHandles os 0 initialModules).length * os.sizeofHMODULE <
        firstNeeded os := by
      rw [storeHandles_length, initialModules_length]; exact h2
    rw [enumerateModules_eq, if_neg hopen, if_neg h1f, if_pos h2len, if_pos h3]
  · intro evs modules neededSize pre m post henum hmods hlt hpre hfail
    rw [iterate_of_enumerate Callback data henum]
    obtain ⟨n, hn⟩ : ∃ n, neededSize / os.sizeofHMODULE = pre.length + (n + 1) :=
      ⟨neededSize / os.sizeofHMODULE - pre.length - 1, by omega⟩
    have hloop := moduleLoop_prefix os Callback data pre [] (m :: post) (n + 1)
      (fun x hx => (hpre x hx).1) (fun x hx => (hpre x hx).2)
    simp only [List.nil_append, List.length_nil, Nat.zero_add] at hloop
    rw [hn, hmods, hloop]
    have hm : (pre ++ m :: post)[pre.length]? = some m := by
      rw [List.getElem?_append_right (Nat.le_refl _)]; simp
    simp [moduleLoop, vectorAt, hm, hfail, Run.lift, Run.bind, Run.prepend]

/-- C8, amended, at a process for which `OpenProcess` fails and at the
process whose second module has no resolvable name. -/
theorem iterate_failure_witness :
    _swift_dl_iterate_phdr noHandleProcess (_addImageCallback noHandleProcess) protocolArgs =
      ⟨[], .fatal "OpenProcess() failed"⟩ ∧
    _swift_dl_iterate_phdr nameFailureProcess (_addImageCallback nameFailureProcess)
        protocolArgs =
      ⟨[.enumProcessModules 8192] ++
        [0x10000].flatMap
          (iterationTrace nameFailureProcess (_addImageCallback nameFailureProcess)
            protocolArgs),
        .fatal "GetModuleFileNameExA() failed"⟩ :=
  ⟨(iterate_failure noHandleProcess (_addImageCallback noHandleProcess) protocolArgs).1
      (by decide),
    (iterate_failure nameFailureProcess (_addImageCallback nameFailureProcess)
      protocolArgs).2.2.2 [.enumProcessModules 8192]
      ([0x10000, 0x20000] ++ List.replicate 1022 0) 16 [0x10000] 0x20000
      (List.replicate 1022 0) (by decide) (by decide) (by decide) (by decide) (by decide)⟩

/-! ## The module buffer -/

theorem toDWORD_of_lt {n : Nat} (h : n < 2 ^ 32) : toDWORD n = n :=
  Nat.mod_eq_of_lt h

theorem resize_length (modules : List Int) (n : Nat) : (resize modules n).length = n := by
  unfold resize
  simp only [List.length_append, List.length_take, List.length_replicate]
  omega

/-- The enumeration in a process whose modules `L` do not change during the
call: one query when `L` fits the initial buffer, otherwise a second query
with a buffer of exactly `L.length` entries; the buffer then starts with
`L`. -/
theorem enumerateModules_steady (os : Win32) (L : List Int)
    (hs : 0 < os.sizeofHMODULE)
    (h1024 : 1024 * os.sizeofHMODULE < 2 ^ 32)
    (hL : L.length * os.sizeofHMODULE < 2 ^ 32)
    (hopen : os.OpenProcess ≠ 0)
    (henum : ∀ k cb, os.EnumProcessModules k cb =
      ⟨true, L.length * os.sizeofHMODULE, L.take (cb / os.sizeofHMODULE)⟩) :
    ∃ post, enumerateModules os =
      ⟨(if 1024 < L.length then
          [.enumProcessModules (1024 * os.sizeofHMODULE),
           .enumProcessModules (L.length * os.sizeofHMODULE)]
        else [.enumProcessModules (1024 * os.sizeofHMODULE)]),
        .ret (L ++ post, L.length * os.sizeofHMODULE)⟩ := by
  have hcb0 : cbOf os initialModules = 1024 * os.sizeofHMODULE := by
    unfold cbOf; rw [initialModules_length, toDWORD_of_lt h1024]
  have hneed : firstNeeded os = L.length * os.sizeofHMODULE := by
    unfold firstNeeded; rw [henum]; exact toDWORD_of_lt hL
  have hdiv0 : 1024 * os.sizeofHMODULE / os.sizeofHMODULE = 1024 :=
    Nat.mul_div_cancel _ hs
  have hdivL : L.length * os.sizeofHMODULE / os.sizeofHMODULE = L.length :=
    Nat.mul_div_cancel _ hs
  have hstore0 : storeHandles os 0 initialModules =
      L.take 1024 ++ initialModules.drop (L.take 1024).length := by
    unfold storeHandles
    simp only [hcb0, henum, hdiv0, initialModules_length, Nat.min_self, List.take_take]
  rw [enumerateModules_eq, if_neg hopen]
  have h1 : ¬ (os.EnumProcessModules 0 (cbOf os initialModules)).ret = false := by
    rw [henum]; simp
  rw [if_neg h1, storeHandles_length, initialModules_length, hneed]
  by_cases hbig : 1024 < L.length
  · have hlt : 1024 * os.sizeofHMODULE < L.length * os.sizeofHMODULE :=
      Nat.mul_lt_mul_of_pos_right hbig hs
    have hrl : (resizedModules os).length = L.length := by
      unfold resizedModules; rw [resize_length, hneed, hdivL]
    have hcb1 : cbOf os (resizedModules os) = L.length * os.sizeofHMODULE := by
      unfold cbOf; rw [hrl, toDWORD_of_lt hL]
    have h3 : ¬ (os.EnumProcessModules 1 (cbOf os (resizedModules os))).ret = false := by
      rw [henum]; simp
    have hstore1 : storeHandles os 1 (resizedModules os) = L := by
      unfold storeHandles
      simp only [hcb1, henum, hdivL, hrl, Nat.min_self, List.take_take, List.take_length]
      rw [List.drop_of_length_le (by rw [hrl])]
      simp
    rw [if_pos hlt, if_neg h3, if_pos hbig, hstore1, hcb0, hcb1, henum]
    exact ⟨[], by simp [toDWORD_of_lt hL]⟩
  · have hnlt : ¬ 1024 * os.sizeofHMODULE < L.length * os.sizeofHMODULE := by
      intro h
      exact hbig (Nat.lt_of_mul_lt_mul_right h)
    have htake : L.take 1024 = L := List.take_of_length_le (by omega)
    rw [if_neg hnlt, if_neg hbig, hstore0, htake, hcb0]
    exact ⟨_, rfl⟩

/-- C9: in a process whose modules `L` are unchanged during the call (every
enumeration query succeeds, reports `L.length * sizeof(HMODULE)` needed bytes,
a size that fits a `DWORD`, and stores the handles that fit the buffer it is
given), with a process handle: when `L` exceeds the 1024 entries of the
initial buffer the buffer is resized to exactly
`neededSize / sizeof(HMODULE)` entries and the query is made exactly once
more, with that buffer; when `L` fits, no second query is made; in both cases
the enumeration leaves a buffer that starts with `L` and a loop bound
`L.length`. When moreover the names resolve and the callback returns `0` (as
`_addImageCallback` does whenever it returns), the per-module callback is
then invoked on each module of `L` exactly once, in enumeration order, and
the scan returns. -/
theorem iterate_steady {δ : Type} (os : Win32) (Callback : PhdrCallback δ) (data : δ)
    (L : List Int)
    (hs : 0 < os.sizeofHMODULE)
    (h1024 : 1024 * os.sizeofHMODULE < 2 ^ 32)
    (hL : L.length * os.sizeofHMODULE < 2 ^ 32)
    (hopen : os.OpenProcess ≠ 0)
    (henum : ∀ k cb, os.EnumProcessModules k cb =
      ⟨true, L.length * os.sizeofHMODULE, L.take (cb / os.sizeofHMODULE)⟩) :
    (resizedModules os).length = firstNeeded os / os.sizeofHMODULE ∧
    cbOf os (resizedModules os) = L.length * os.sizeofHMODULE ∧
    L.length * os.sizeofHMODULE / os.sizeofHMODULE = L.length ∧
    (∃ post, enumerateModules os =
      ⟨(if 1024 < L.length then
          [.enumProcessModules (1024 * os.sizeofHMODULE),
           .enumProcessModules (cbOf os (resizedModules os))]
        else [.enumProcessModules (1024 * os.sizeofHMODULE)]),
        .ret (L ++ post, L.length * os.sizeofHMODULE)⟩) ∧
    ((∀ m ∈ L, (os.GetModuleFileNameExA m).ret ≠ 0) →
      (∀ m ∈ L, (Callback (hdrOf os m) (2 * os.sizeofHMODULE) data).outcome = .ret 0) →
      _swift_dl_iterate_phdr os Callback data =
        ⟨(if 1024 < L.length then
            [.enumProcessModules (1024 * os.sizeofHMODULE),
             .enumProcessModules (cbOf os (resizedModules os))]
          else [.enumProcessModules (1024 * os.sizeofHMODULE)]) ++
            L.flatMap (iterationTrace os Callback data),
          .ret 0⟩) := by
  have hneed : firstNeeded os = L.length * os.sizeofHMODULE := by
    unfold firstNeeded; rw [henum]; exact toDWORD_of_lt hL
  have hdivL : L.length * os.sizeofHMODULE / os.sizeofHMODULE = L.length :=
    Nat.mul_div_cancel _ hs
  have hrl : (resizedModules os).length = firstNeeded os / os.sizeofHMODULE := by
    unfold resizedModules; rw [resize_length]
  have hcb1 : cbOf os (resizedModules os) = L.length * os.sizeofHMODULE := by
    unfold cbOf; rw [hrl, hneed, hdivL, toDWORD_of_lt hL]
  obtain ⟨post, hen⟩ := enumerateModules_steady os L hs h1024 hL hopen henum
  refine ⟨hrl, hcb1, hdivL, ⟨post, by rw [hcb1]; exact hen⟩, ?_⟩
  intro hname hcb
  rw [iterate_of_enumerate Callback data hen, hdivL, hcb1]
  have hloop := moduleLoop_prefix os Callback data L [] post 0 hname hcb
  simp only [List.nil_append, List.length_nil, Nat.zero_add, Nat.add_zero] at hloop
  rw [hloop]
  simp [moduleLoop, Run.prepend]

theorem manyModules_length : manyModules.length = 1025 := by
  unfold manyModules
  rw [List.length_map, List.length_range]

/-- Every module of the 1025-module process resolves to the scenario image,
on which `_addImageCallback` returns `0`. -/
theorem steadyProcess_callback (m : Int) :
    (_addImageCallback steadyProcess (hdrOf steadyProcess m)
      (2 * steadyProcess.sizeofHMODULE) protocolArgs).outcome = .ret 0 := by
  rw [addImageCallback_hdrOf]
  have hres : resolvedHandle steadyProcess m = 0x10000 := rfl
  rw [hres]
  decide

theorem raceProcess_callback (m : Int) :
    (_addImageCallback raceProcess (hdrOf raceProcess m)
      (2 * raceProcess.sizeofHMODULE) protocolArgs).outcome = .ret 0 := by
  rw [addImageCallback_hdrOf]
  have hres : resolvedHandle raceProcess m = 0x10000 := rfl
  rw [hres]
  decide

/-- C9 at a process with 1025 unchanged modules: two queries, the second with
a buffer of 1025 entries, then the callback on each module in order. -/
theorem iterate_steady_witness :
    1024 < manyModules.length ∧
    cbOf steadyProcess (resizedModules steadyProcess) =
      manyModules.length * steadyProcess.sizeofHMODULE ∧
    _swift_dl_iterate_phdr steadyProcess (_addImageCallback steadyProcess) protocolArgs =
      ⟨(if 1024 < manyModules.length then
          [.enumProcessModules (1024 * steadyProcess.sizeofHMODULE),
           .enumProcessModules (cbOf steadyProcess (resizedModules steadyProcess))]
        else [.enumProcessModules (1024 * steadyProcess.sizeofHMODULE)]) ++
          manyModules.flatMap
            (iterationTrace steadyProcess (_addImageCallback steadyProcess) protocolArgs),
        .ret 0⟩ :=
  have h := iterate_steady steadyProcess (_addImageCallback steadyProcess) protocolArgs
    manyModules (by decide) (by decide) (by rw [manyModules_length]; decide) (by decide)
    (fun _ _ => rfl)
  ⟨by rw [manyModules_length]; decide, h.2.1,
    h.2.2.2.2 (fun _ _ => (by decide : (5 : Nat) ≠ 0)) (fun m _ => steadyProcess_callback m)⟩

/-- The enumeration when the first query reports more than 1024 modules `L`
and the second query, made with a buffer of `L.length` entries, reports
`needed2` bytes and stores the first `L.length` of the handles `W`. -/
theorem enumerateModules_requery (os : Win32) (L W : List Int) (needed2 : Nat)
    (hs : 0 < os.sizeofHMODULE)
    (h1024 : 1024 * os.sizeofHMODULE < 2 ^ 32)
    (hL : L.length * os.sizeofHMODULE < 2 ^ 32)
    (hopen : os.OpenProcess ≠ 0)
    (hbig : 1024 < L.length)
    (hW : L.length ≤ W.length)
    (h0 : ∀ cb, os.EnumProcessModules 0 cb =
      ⟨true, L.length * os.sizeofHMODULE, L.take (cb / os.sizeofHMODULE)⟩)
    (h1 : ∀ cb, os.EnumProcessModules 1 cb =
      ⟨true, needed2, W.take (cb / os.sizeofHMODULE)⟩) :
    enumerateModules os =
      ⟨[.enumProcessModules (1024 * os.sizeofHMODULE),
        .enumProcessModules (L.length * os.sizeofHMODULE)],
        .ret (W.take L.length, toDWORD needed2)⟩ := by
  have hcb0 : cbOf os initialModules = 1024 * os.sizeofHMODULE := by
    unfold cbOf; rw [initialModules_length, toDWORD_of_lt h1024]
  have hneed : firstNeeded os = L.length * os.sizeofHMODULE := by
    unfold firstNeeded; rw [h0]; exact toDWORD_of_lt hL
  have hdivL : L.length * os.sizeofHMODULE / os.sizeofHMODULE = L.length :=
    Nat.mul_div_cancel _ hs
  have hlt : 1024 * os.sizeofHMODULE < L.length * os.sizeofHMODULE :=
    Nat.mul_lt_mul_of_pos_right hbig hs
  have hrl : (resizedModules os).length = L.length := by
    unfold resizedModules; rw [resize_length, hneed, hdivL]
  have hcb1 : cbOf os (resizedModules os) = L.length * os.sizeofHMODULE := by
    unfold cbOf; rw [hrl, toDWORD_of_lt hL]
  have hf1 : ¬ (os.EnumProcessModules 0 (cbOf os initialModules)).ret = false := by
    rw [h0]; simp
  have hf3 : ¬ (os.EnumProcessModules 1 (cbOf os (resizedModules os))).ret = false := by
    rw [h1]; simp
  have hstore1 : storeHandles os 1 (resizedModules os) = W.take L.length := by
    unfold storeHandles
    simp only [hcb1, h1, hdivL, hrl, Nat.min_self, List.take_take]
    rw [List.drop_of_length_le (by rw [hrl, List.length_take]; omega)]
    simp
  rw [enumerateModules_eq, if_neg hopen, if_neg hf1, storeHandles_length,
    initialModules_length, hneed, if_pos hlt, if_neg hf3, hstore1, hcb0, hcb1, h1]

/-- When the loop bound `neededSize / sizeof(HMODULE)` exceeds the length of
the buffer and nothing stops the loop earlier, the loop reads the buffer at
the index equal to its length. -/
theorem iterate_overrun {δ : Type} (os : Win32) (Callback : PhdrCallback δ) (data : δ)
    (evs : List Event) (modules : List Int) (neededSize : Nat)
    (henum : enumerateModules os = ⟨evs, .ret (modules, neededSize)⟩)
    (hlt : modules.length < neededSize / os.sizeofHMODULE)
    (hname : ∀ m ∈ modules, (os.GetModuleFileNameExA m).ret ≠ 0)
    (hcb : ∀ m ∈ modules,
      (Callback (hdrOf os m) (2 * os.sizeofHMODULE) data).outcome = .ret 0) :
    _swift_dl_iterate_phdr os Callback data =
      ⟨evs ++ modules.flatMap (iterationTrace os Callback data),
        .undefined (.vectorIndex modules.length modules.length)⟩ := by
  rw [iterate_of_enumerate Callback data henum]
  obtain ⟨n, hn⟩ : ∃ n, neededSize / os.sizeofHMODULE = modules.length + (n + 1) :=
    ⟨neededSize / os.sizeofHMODULE - modules.length - 1, by omega⟩
  have hloop := moduleLoop_prefix os Callback data modules [] [] (n + 1) hname hcb
  simp only [List.nil_append, List.append_nil, List.length_nil, Nat.zero_add] at hloop
  rw [hn, hloop]
  have hm : modules[modules.length]? = none := List.getElem?_eq_none (Nat.le_refl _)
  simp [moduleLoop, vectorAt, hm, Run.lift, Run.bind, Run.prepend]

/-- C10: the code at a process in which a module is loaded between the two
enumeration queries. The first query reports 1025 modules, the buffer is
resized to 1025 entries, the second query succeeds and reports 1026 modules;
the loop bound is then 1026 and the loop reads `modules[1025]` in a buffer
of length 1025. -/
theorem moduleBuffer_overrun :
    enumerateModules raceProcess =
      ⟨[.enumProcessModules 8192, .enumProcessModules 8200], .ret (manyModules, 8208)⟩ ∧
    manyModules.length = 1025 ∧ 8208 / raceProcess.sizeofHMODULE = 1026 ∧
    (_swift_dl_iterate_phdr raceProcess (_addImageCallback raceProcess)
      protocolArgs).outcome = .undefined (.vectorIndex 1025 1025) := by
  have hlen := manyModules_length
  have henum : enumerateModules raceProcess =
      ⟨[.enumProcessModules 8192, .enumProcessModules 8200],
        .ret (manyModules, 8208)⟩ := by
    have h := enumerateModules_requery raceProcess manyModules
      (manyModules ++ [0x55550000]) (1026 * 8) (by decide) (by decide)
      (by rw [hlen]; decide) (by decide) (by rw [hlen]; decide) (by simp)
      (fun _ => by rw [hlen]; rfl) (fun _ => rfl)
    rw [h, List.take_left', hlen]
    · rfl
    · rfl
  refine ⟨henum, hlen, by decide, ?_⟩
  rw [iterate_overrun raceProcess (_addImageCallback raceProcess) protocolArgs _ _ _ henum
    (by rw [hlen]; decide) (fun _ _ => (by decide : (5 : Nat) ≠ 0))
    (fun m _ => raceProcess_callback m), hlen]

end ImageInspectionWin32
